import Mathlib

/-!
Verification development for the day811/OCDE-P8 weather-data pipeline.

This file gives a shallow embedding, in Lean 4, of the decision logic of
three Python modules:

* `src/preprocessing/unified_data_pipeline.py` (source adapters, field
  converters, empty-row filtering, station merge),
* `src/ingestion/mongo_loader.py` (record validation and the MongoDB
  upsert loader), and
* `src/quality_checker/quality_checker.py` (the seven-check quality engine),

together with theorems settling the frozen claims C1 through C10 about the
natural-language specification of that code.

Modelling conventions:

* A JSON / Python scalar value is a `PyVal`; a Python dict (and a MongoDB
  document) is a `Doc`, an association list of string keys and values with
  the invariant (stated as a hypothesis where needed) that keys are
  distinct, as Python dicts guarantee.
* Numbers are embedded as exact rationals.  Every concrete number appearing
  in the theorems below is exactly representable as an IEEE double and all
  comparisons and roundings performed on them are exact, so the rational
  results coincide with the Python float results at those inputs.
* Python `round` is round-half-to-even; it is modelled exactly on `Frac`.
* String helpers (`strip`, `upper`, `replace`, `float()` parsing) are
  modelled for ASCII data, the only data the pipeline produces; Unicode
  case folding and non-ASCII digit forms are outside the model.
-/

/-- Exact rational numbers with kernel-computable arithmetic, used to embed
Python floats.  A value is kept normalized (positive denominator, coprime
numerator and denominator) by the smart constructor `Frac.mk2`, so that
structural equality is value equality.  All concrete numbers in this file are
exactly representable IEEE doubles on which the Python float operations are
exact, so this exact model agrees with the code at those inputs. -/
structure Frac where
  n : ℤ
  d : ℕ
  deriving DecidableEq, Repr

namespace Frac

/-- Normalized fraction `n / d`; a zero denominator (never produced on the
code paths modelled here) collapses to `0`. -/
def mk2 (n d : ℤ) : Frac :=
  if d = 0 then ⟨0, 1⟩
  else
    let n' := if d < 0 then -n else n
    let dn := d.natAbs
    let g := Nat.gcd n'.natAbs dn
    ⟨n' / (g : ℤ), dn / g⟩

/-- Embed an integer. -/
def ofInt (n : ℤ) : Frac := ⟨n, 1⟩

/-- Embed a natural number. -/
def ofN (n : ℕ) : Frac := ⟨(n : ℤ), 1⟩

instance (n : ℕ) : OfNat Frac n := ⟨⟨(n : ℤ), 1⟩⟩

/-- Exact rational addition. -/
def add (a b : Frac) : Frac := mk2 (a.n * b.d + b.n * a.d) (a.d * b.d)

/-- Exact rational negation. -/
def neg (a : Frac) : Frac := ⟨-a.n, a.d⟩

/-- Exact rational subtraction. -/
def sub (a b : Frac) : Frac := add a (neg b)

/-- Exact rational multiplication. -/
def mul (a b : Frac) : Frac := mk2 (a.n * b.n) (a.d * b.d)

/-- Exact rational division (division by zero, never hit on the guarded code
paths, collapses to `0`). -/
def div (a b : Frac) : Frac := mk2 (a.n * b.d) (a.d * b.n)

/-- Natural-number power. -/
def pow (a : Frac) : ℕ → Frac
  | 0 => 1
  | k + 1 => mul (pow a k) a

/-- Integer power. -/
def zpow (a : Frac) (e : ℤ) : Frac :=
  if 0 ≤ e then pow a e.toNat else pow (div 1 a) (-e).toNat

/-- Floor to an integer (denominators are positive on all constructed
values, so flooring division is the mathematical floor). -/
def floor (a : Frac) : ℤ := a.n.fdiv a.d

instance : Add Frac := ⟨add⟩
instance : Neg Frac := ⟨neg⟩
instance : Sub Frac := ⟨sub⟩
instance : Mul Frac := ⟨mul⟩
instance : Div Frac := ⟨div⟩
instance : Pow Frac ℕ := ⟨pow⟩
instance : Pow Frac ℤ := ⟨zpow⟩
instance : LE Frac := ⟨fun a b => a.n * (b.d : ℤ) ≤ b.n * (a.d : ℤ)⟩
instance : LT Frac := ⟨fun a b => a.n * (b.d : ℤ) < b.n * (a.d : ℤ)⟩

instance (a b : Frac) : Decidable (a ≤ b) :=
  inferInstanceAs (Decidable (a.n * (b.d : ℤ) ≤ b.n * (a.d : ℤ)))

instance (a b : Frac) : Decidable (a < b) :=
  inferInstanceAs (Decidable (a.n * (b.d : ℤ) < b.n * (a.d : ℤ)))

end Frac

/-- Scalar Python/JSON/BSON value as stored in a document field. -/
inductive PyVal where
  | vNull
  | vStr (s : String)
  | vInt (n : ℤ)
  | vFloat (q : Frac)
  | vBool (b : Bool)
  deriving DecidableEq, Repr

/-- A Python dict / MongoDB document: association list of fields. -/
abbrev Doc := List (String × PyVal)

/-- A MongoDB collection: list of documents in insertion order. -/
abbrev Store := List Doc

/-- First binding of key `k` in document `d` (Python dict lookup). -/
def dictGet? (d : Doc) (k : String) : Option PyVal :=
  match d with
  | [] => none
  | (k', v) :: t => if k' = k then some v else dictGet? t k

/-- Python `record.get(k)`: a missing key reads as `None` (here `vNull`). -/
def getv (d : Doc) (k : String) : PyVal :=
  (dictGet? d k).getD .vNull

/-- Whether the document has the key at all (Python `k in d`). -/
def hasKey (d : Doc) (k : String) : Bool :=
  (dictGet? d k).isSome

/-- Rewrite every binding of `k` to value `v`, keeping positions.  On the
duplicate-free documents Python produces there is at most one binding. -/
def setEntries (d : Doc) (k : String) (v : PyVal) : Doc :=
  d.map (fun p => if p.1 = k then (k, v) else p)

/-- Python `d[k] = v`: replace the binding in place, or append a new one. -/
def dictSet (d : Doc) (k : String) (v : PyVal) : Doc :=
  if hasKey d k then setEntries d k v
  else d ++ [(k, v)]

/-- Python truthiness of a scalar, as used by `if not record.get(...)`. -/
def truthy : PyVal → Bool
  | .vNull => false
  | .vStr s => s ≠ ""
  | .vInt n => n ≠ 0
  | .vFloat q => q ≠ 0
  | .vBool b => b

/-- The whitespace characters stripped by Python `str.strip()` (ASCII part). -/
def pyWs (c : Char) : Bool :=
  c = ' ' || c = '\t' || c = '\n' || c = '\r' || c = '\x0b' || c = '\x0c'

/-- Drop leading Python whitespace from a character list. -/
def dropWs : List Char → List Char
  | [] => []
  | c :: t => if pyWs c then dropWs t else c :: t

/-- Python `str.strip()` on a character list. -/
def pyStripL (l : List Char) : List Char :=
  (dropWs (dropWs l).reverse).reverse

/-- Python `str.strip()`. -/
def pyStrip (s : String) : String :=
  String.mk (pyStripL s.data)

/-- Python `str.upper()` restricted to ASCII case mapping. -/
def pyUpper (s : String) : String :=
  String.mk (s.data.map Char.toUpper)

/-- Python `str.replace('°F', '')`: delete every (non-overlapping,
left-to-right) occurrence of the two-character pattern `°F`. -/
def stripDegF : List Char → List Char
  | [] => []
  | [c] => [c]
  | c :: d :: rest =>
    if c = '°' && d = 'F' then stripDegF rest
    else c :: stripDegF (d :: rest)

/-- Python `s.replace('°F', '')` as a string function. -/
def pyReplaceDegF (s : String) : String :=
  String.mk (stripDegF s.data)

/-- Round half to even on `Frac`, the tie rule of Python `round`. -/
def rhe (q : Frac) : ℤ :=
  let f := Frac.floor q
  let frac := q - Frac.ofInt f
  if frac < 1/2 then f
  else if 1/2 < frac then f + 1
  else if f % 2 = 0 then f else f + 1

/-- Python `round(q, nd)` modelled exactly on rationals. -/
def pyRound (q : Frac) (nd : ℕ) : Frac :=
  Frac.ofInt (rhe (q * 10 ^ nd)) / 10 ^ nd

/-- ASCII decimal digit test (the digits Python `float()` accepts in the
data this pipeline sees). -/
def isDig (c : Char) : Bool :=
  c = '0' || c = '1' || c = '2' || c = '3' || c = '4' ||
  c = '5' || c = '6' || c = '7' || c = '8' || c = '9'

/-- Longest digit prefix of a character list, and the rest. -/
def takeDigits : List Char → List Char × List Char
  | [] => ([], [])
  | c :: cs =>
    if isDig c then
      let r := takeDigits cs
      (c :: r.1, r.2)
    else ([], c :: cs)

/-- Numeric value of a digit list, most significant first. -/
def digitsToNat (ds : List Char) : ℕ :=
  ds.foldl (fun n c => 10 * n + (c.toNat - 48)) 0

/-- Optional leading sign of a float literal. -/
def splitSign : List Char → Frac × List Char
  | [] => (1, [])
  | c :: t => if c = '+' then (1, t) else if c = '-' then (-1, t) else (1, c :: t)

/-- Optional fraction part (a dot followed by digits) of a float literal. -/
def splitFrac : List Char → List Char × List Char
  | [] => ([], [])
  | c :: t => if c = '.' then takeDigits t else ([], c :: t)

/-- Optional exponent part of a float literal; anything left over after it
makes the whole literal invalid. -/
def parseExp (sgn mant : Frac) : List Char → Option Frac
  | [] => some (sgn * mant)
  | e :: t =>
    if e = 'e' || e = 'E' then
      let es : ℤ × List Char :=
        match t with
        | [] => (1, [])
        | c :: t2 => if c = '+' then ((1 : ℤ), t2) else if c = '-' then (-1, t2) else (1, c :: t2)
      let ed := takeDigits es.2
      if ed.1.isEmpty || !ed.2.isEmpty then none
      else some (sgn * mant * (10 : Frac) ^ (es.1 * (digitsToNat ed.1 : ℤ)))
    else none

/-- Core of Python `float()` on a stripped character list: optional sign,
decimal digits with optional fraction part, optional exponent.  Models the
finite decimal literals `float` accepts; `inf`/`nan` words, underscore
separators and non-ASCII digits are outside the model (the pipeline never
produces them). -/
def parseFloatCore (cs0 : List Char) : Option Frac :=
  let sc := splitSign cs0
  let ip := takeDigits sc.2
  let fp := splitFrac ip.2
  if ip.1.isEmpty && fp.1.isEmpty then none
  else
    let mant : Frac := Frac.ofN (digitsToNat ip.1) + Frac.ofN (digitsToNat fp.1) / (10 ^ fp.1.length : Frac)
    parseExp sc.1 mant fp.2

/-- Python `float(s)`: strips surrounding whitespace, then parses a decimal
literal; returns `none` where `float` raises `ValueError`. -/
def pyFloat (s : String) : Option Frac :=
  parseFloatCore (pyStripL s.data)

/-- `ExcelDataHandler._fahrenheit_to_celsius`: `None`, blank and `'nan'`
inputs give `None`; otherwise the string with `°F` removed is parsed as a
float and `(F − 32) × 5/9` is rounded to one decimal; a parse failure gives
`None` (the Python `except` arm). -/
def fahrenheit_to_celsius (t : Option String) : Option Frac :=
  match t with
  | none => none
  | some s =>
    if s = "" ∨ pyStrip s = "" ∨ pyUpper s = "NAN" then none
    else
      match pyFloat (pyStrip (pyReplaceDegF s)) with
      | none => none
      | some v => some (pyRound ((v - 32) * 5 / 9) 1)

/-- The 16-point compass table of
`ExcelDataHandler._extract_wind_direction_degrees` (22.5° steps). -/
def direction_map : List (String × Frac) :=
  [("N", 0), ("NNE", 45/2), ("NE", 45), ("ENE", 135/2), ("E", 90),
   ("ESE", 225/2), ("SE", 135), ("SSE", 315/2), ("S", 180),
   ("SSW", 405/2), ("SW", 225), ("WSW", 495/2), ("W", 270),
   ("WNW", 585/2), ("NW", 315), ("NNW", 675/2)]

/-- `ExcelDataHandler._extract_wind_direction_degrees`: falsy input gives
`None`; otherwise the stripped, upper-cased string is looked up in the
16-point table, and an unknown abbreviation gives `None`. -/
def extract_wind_direction_degrees (d : Option String) : Option Frac :=
  match d with
  | none => none
  | some s =>
    if s = "" then none
    else direction_map.lookup (pyUpper (pyStrip s))

/-! ### String-helper lemmas used to settle C8 and C9 -/

theorem dropWs_eq_nil_of_all {l : List Char} (h : ∀ c ∈ l, pyWs c = true) :
    dropWs l = [] := by
  induction l with
  | nil => rfl
  | cons c t ih =>
    simp only [dropWs, h c (List.mem_cons_self c t), if_true]
    exact ih (fun d hd => h d (List.mem_cons_of_mem c hd))

theorem all_ws_of_dropWs_eq_nil {l : List Char} (h : dropWs l = []) :
    ∀ c ∈ l, pyWs c = true := by
  induction l with
  | nil => simp
  | cons c t ih =>
    by_cases hc : pyWs c = true
    · intro d hd
      rcases List.mem_cons.mp hd with rfl | hd
      · exact hc
      · have ht : dropWs t = [] := by simpa [dropWs, hc] using h
        exact ih ht d hd
    · exfalso
      simp [dropWs, hc] at h

theorem all_ws_lift {l : List Char} (h : ∀ c ∈ dropWs l, pyWs c = true) :
    ∀ c ∈ l, pyWs c = true := by
  induction l with
  | nil => simp
  | cons c t ih =>
    by_cases hc : pyWs c = true
    · intro d hd
      rcases List.mem_cons.mp hd with rfl | hd
      · exact hc
      · exact ih (by simpa [dropWs, hc] using h) d hd
    · have hmem : c ∈ dropWs (c :: t) := by simp [dropWs, hc]
      exact absurd (h c hmem) hc

theorem all_ws_of_pyStripL_eq_nil {l : List Char} (h : pyStripL l = []) :
    ∀ c ∈ l, pyWs c = true := by
  have h2 : dropWs (dropWs l).reverse = [] := by
    have h3 := congrArg List.reverse h
    simpa [pyStripL] using h3
  have h4 : ∀ c ∈ dropWs l, pyWs c = true := fun c hc =>
    all_ws_of_dropWs_eq_nil h2 c (List.mem_reverse.mpr hc)
  exact all_ws_lift h4

theorem stripDegF_of_all_ws {l : List Char} (h : ∀ c ∈ l, pyWs c = true) :
    stripDegF l = l := by
  induction l with
  | nil => rfl
  | cons c t ih =>
    have hc : pyWs c = true := h c (List.mem_cons_self c t)
    have hne : c ≠ '°' := by
      intro he
      subst he
      simp [pyWs] at hc
    cases t with
    | nil => rfl
    | cons d t2 =>
      have hcond : (c = '°' && d = 'F') = false := by simp [hne]
      simp only [stripDegF, hcond, Bool.false_eq_true, if_false]
      rw [ih (fun x hx => h x (List.mem_cons_of_mem c hx))]

theorem parseFloatCore_bad_head {c : Char} (cs : List Char)
    (h1 : c ≠ '+') (h2 : c ≠ '-') (h3 : isDig c = false) (h4 : c ≠ '.') :
    parseFloatCore (c :: cs) = none := by
  simp [parseFloatCore, splitSign, h1, h2, takeDigits, h3, splitFrac, h4]

theorem not_special_of_toUpper {x : Char}
    (h : Char.toUpper x = 'N' ∨ Char.toUpper x = 'A') :
    pyWs x = false ∧ x ≠ '°' ∧ x ≠ '+' ∧ x ≠ '-' ∧ x ≠ '.' ∧ isDig x = false := by
  refine ⟨?_, ?_, ?_, ?_, ?_, ?_⟩
  · by_contra hw
    have hw' : pyWs x = true := by simpa using hw
    simp [pyWs] at hw'
    rcases hw' with ((((rfl | rfl) | rfl) | rfl) | rfl) | rfl <;>
      rcases h with h | h <;> exact absurd h (by decide)
  · intro he; subst he; rcases h with h | h <;> exact absurd h (by decide)
  · intro he; subst he; rcases h with h | h <;> exact absurd h (by decide)
  · intro he; subst he; rcases h with h | h <;> exact absurd h (by decide)
  · intro he; subst he; rcases h with h | h <;> exact absurd h (by decide)
  · by_contra hg
    have hg' : isDig x = true := by simpa using hg
    simp [isDig] at hg'
    rcases hg' with ((((((((rfl | rfl) | rfl) | rfl) | rfl) | rfl) | rfl) | rfl) | rfl) | rfl <;>
      rcases h with h | h <;> exact absurd h (by decide)

theorem strip_empty_parse_none {s : String} (h : pyStrip s = "") :
    pyFloat (pyStrip (pyReplaceDegF s)) = none := by
  have hl : pyStripL s.data = [] := by
    have h2 := congrArg String.data h
    simpa [pyStrip] using h2
  have hws : ∀ c ∈ s.data, pyWs c = true := all_ws_of_pyStripL_eq_nil hl
  have h1 : stripDegF s.data = s.data := stripDegF_of_all_ws hws
  have h5 : pyFloat (pyStrip (pyReplaceDegF s)) = parseFloatCore (pyStripL (pyStripL s.data)) := by
    simp [pyFloat, pyStrip, pyReplaceDegF, h1]
  rw [h5, hl]
  rfl

theorem upper_NAN_parse_none {s : String} (h : pyUpper s = "NAN") :
    pyFloat (pyStrip (pyReplaceDegF s)) = none := by
  have hd : s.data.map Char.toUpper = ['N', 'A', 'N'] := by
    have h2 := congrArg String.data h
    simpa [pyUpper] using h2
  obtain ⟨a, b, c, habc, ha, hb, hc⟩ :
      ∃ a b c, s.data = [a, b, c] ∧
        Char.toUpper a = 'N' ∧ Char.toUpper b = 'A' ∧ Char.toUpper c = 'N' := by
    cases hs : s.data with
    | nil => rw [hs] at hd; simp at hd
    | cons a t =>
      cases t with
      | nil => rw [hs] at hd; simp at hd
      | cons b t2 =>
        cases t2 with
        | nil => rw [hs] at hd; simp at hd
        | cons c t3 =>
          cases t3 with
          | nil =>
            rw [hs] at hd
            simp at hd
            exact ⟨a, b, c, rfl, hd.1, hd.2.1, hd.2.2⟩
          | cons d t4 => rw [hs] at hd; simp at hd
  have na := not_special_of_toUpper (Or.inl ha)
  have nb := not_special_of_toUpper (Or.inr hb)
  have nc := not_special_of_toUpper (Or.inl hc)
  have e1 : stripDegF [a, b, c] = [a, b, c] := by
    simp [stripDegF, na.2.1, nb.2.1]
  have e3 : pyStripL [a, b, c] = [a, b, c] := by
    simp [pyStripL, dropWs, na.1, nc.1]
  have e4 : pyFloat (pyStrip (pyReplaceDegF s)) = parseFloatCore [a, b, c] := by
    simp [pyFloat, pyStrip, pyReplaceDegF, habc, e1, e3]
  rw [e4]
  exact parseFloatCore_bad_head _ na.2.2.1 na.2.2.2.1 na.2.2.2.2.2 na.2.2.2.2.1

/-- C8: the Fahrenheit converter of the tabular adapter.  Whenever the input
string, with `°F` removed and whitespace stripped, parses as a float `v`,
the result is `(v − 32) × 5/9` rounded (half-even) to one decimal; when the
stripped form does not parse, and on `None`, the result is `None`.  The
embedding is a total function: no exception escapes to the caller. -/
theorem c8_fahrenheit_to_celsius :
    (∀ s v, pyFloat (pyStrip (pyReplaceDegF s)) = some v →
        fahrenheit_to_celsius (some s) = some (pyRound ((v - 32) * 5 / 9) 1)) ∧
    (∀ s, pyFloat (pyStrip (pyReplaceDegF s)) = none →
        fahrenheit_to_celsius (some s) = none) ∧
    fahrenheit_to_celsius none = none := by
  refine ⟨?_, ?_, rfl⟩
  · intro s v hv
    have g1 : s ≠ "" := by
      intro he
      rw [he] at hv
      exact Option.noConfusion ((rfl : pyFloat (pyStrip (pyReplaceDegF "")) = none) ▸ hv)
    have g2 : pyStrip s ≠ "" := by
      intro he
      rw [strip_empty_parse_none he] at hv
      exact Option.noConfusion hv
    have g3 : pyUpper s ≠ "NAN" := by
      intro he
      rw [upper_NAN_parse_none he] at hv
      exact Option.noConfusion hv
    simp [fahrenheit_to_celsius, g1, g2, g3, hv]
  · intro s hn
    by_cases g : s = "" ∨ pyStrip s = "" ∨ pyUpper s = "NAN"
    · simp [fahrenheit_to_celsius, g]
    · simp [fahrenheit_to_celsius, g, hn]

/-- Witness for C8 at concrete inputs: `"56.8 °F"` converts to 13.8 °C and
an unparseable string converts to `None`. -/
theorem c8_fahrenheit_to_celsius_witness :
    fahrenheit_to_celsius (some "56.8 °F") = some (69/5) ∧
    fahrenheit_to_celsius (some "abc") = none := by
  constructor
  · exact (c8_fahrenheit_to_celsius.1 "56.8 °F" (284/5) (by decide)).trans (by decide)
  · exact c8_fahrenheit_to_celsius.2.1 "abc" (by decide)

/-- C9: every abbreviation of the 16-point compass table converts to a
multiple of 22.5 degrees inside [0, 337.5]; any input whose stripped,
upper-cased form is not a key of the table gives `None`, as does `None`. -/
theorem c9_wind_direction_degrees :
    (∀ p ∈ direction_map,
        extract_wind_direction_degrees (some p.1) = some p.2 ∧
        (∃ k : Fin 16, p.2 = Frac.ofN (k : ℕ) * (45/2)) ∧ 0 ≤ p.2 ∧ p.2 ≤ 675/2) ∧
    (∀ s : String, direction_map.lookup (pyUpper (pyStrip s)) = none →
        extract_wind_direction_degrees (some s) = none) ∧
    extract_wind_direction_degrees none = none := by
  refine ⟨by decide, ?_, rfl⟩
  intro s h
  by_cases hs : s = ""
  · simp [extract_wind_direction_degrees, hs]
  · simp [extract_wind_direction_degrees, hs, h]

/-- Witness for C9 at concrete inputs: `"WSW"` is in the table and maps to
247.5; `"XQ"` is not in the table and maps to `None`. -/
theorem c9_wind_direction_degrees_witness :
    extract_wind_direction_degrees (some "WSW") = some (495/2) ∧
    extract_wind_direction_degrees (some "XQ") = none :=
  ⟨(c9_wind_direction_degrees.1 ("WSW", 495/2) (by decide)).1,
   c9_wind_direction_degrees.2.1 "XQ" (by decide)⟩

/-! ### C5: the empty-row filter of the source adapters -/

/-- The measurement-field subset hard-coded in
`DataSourceHandler.filter_empty_rows` — note that it contains `pluie_3h`
(3h rain) and not `visibilite` (visibility). -/
def filter_measurement_fields : List String :=
  ["temperature", "pression", "humidite", "vent_moyen",
   "vent_rafales", "pluie_3h", "pluie_1h"]

/-- The one-field populated test of `filter_empty_rows`:
`row.get(field) is not None and str(row.get(field, '')).strip()`.
A missing or null field is unpopulated; a string field is populated when it
strips to something non-empty; any number or boolean prints non-blank. -/
def measValuePresent (row : Doc) (f : String) : Bool :=
  match getv row f with
  | .vNull => false
  | .vStr s => pyStrip s ≠ ""
  | _ => true

/-- `DataSourceHandler.filter_empty_rows`: keep a row exactly when some
field of the fixed subset is populated. -/
def filter_empty_rows (data : List Doc) : List Doc :=
  data.filter (fun row => filter_measurement_fields.any (measValuePresent row))

/-- The filtering step of `DataSourceHandler.process`: when
`skip_empty_rows` is configured, each station's record list is filtered
independently; otherwise the records pass through unchanged. -/
def process_filter (skip : Bool) (hourly : List (String × List Doc)) :
    List (String × List Doc) :=
  if skip then hourly.map (fun p => (p.1, filter_empty_rows p.2)) else hourly

/-- Modelled from the spec words of claim C5: the measurement-field subset
the spec names — temperature, pressure, humidity, mean wind, gust, 1h rain
and visibility. -/
def spec_c5_fields : List String :=
  ["temperature", "pression", "humidite", "vent_moyen",
   "vent_rafales", "pluie_1h", "visibilite"]

/-- Modelled from the spec words of claim C5: drop a row iff every field of
the spec's subset is null or blank. -/
def spec_c5_drops (row : Doc) : Bool :=
  spec_c5_fields.all (fun f => !measValuePresent row f)

/-- C5 counterexample: a row whose only populated field is `visibilite` is
dropped by `filter_empty_rows` (its subset has `pluie_3h` instead of
`visibilite`), while the claimed subset has a populated field, so the claim
"drop iff every one of temperature, pressure, humidity, mean wind, gust,
1h rain, visibility is null/blank" fails on the code. -/
theorem c5_counterexample :
    filter_empty_rows [[("visibilite", PyVal.vFloat 5)]] = [] ∧
    spec_c5_drops [("visibilite", PyVal.vFloat 5)] = false := by
  decide

/-- C5 amended: a row is kept by the filter iff it is in the input and not
every field of the code's subset (temperature, pressure, humidity, mean
wind, gust, 3h rain, 1h rain) is null/blank; when configured the filter is
applied to each station's list independently, and otherwise nothing is
dropped. -/
theorem c5_filter_empty_rows :
    (∀ data row, row ∈ filter_empty_rows data ↔
        row ∈ data ∧
          ¬ (filter_measurement_fields.all (fun f => !measValuePresent row f)) = true) ∧
    (∀ hourly, process_filter true hourly =
        hourly.map (fun p => (p.1, filter_empty_rows p.2))) ∧
    (∀ hourly, process_filter false hourly = hourly) := by
  refine ⟨?_, fun h => rfl, fun h => rfl⟩
  intro data row
  rw [filter_empty_rows, List.mem_filter]
  constructor
  · rintro ⟨hmem, hany⟩
    refine ⟨hmem, ?_⟩
    simp only [List.any_eq_true] at hany
    simp only [List.all_eq_true]
    push_neg
    obtain ⟨f, hf, hp⟩ := hany
    exact ⟨f, hf, by simp [hp]⟩
  · rintro ⟨hmem, hall⟩
    refine ⟨hmem, ?_⟩
    simp only [List.all_eq_true] at hall
    push_neg at hall
    obtain ⟨f, hf, hp⟩ := hall
    simp only [List.any_eq_true]
    exact ⟨f, hf, by simpa using hp⟩

/-! ### Documents: lookup/update lemmas shared by the loader claims -/

theorem dictGet?_append (d e : Doc) (k : String) :
    dictGet? (d ++ e) k =
      match dictGet? d k with
      | some v => some v
      | none => dictGet? e k := by
  induction d with
  | nil => rfl
  | cons p t ih =>
    by_cases hp : p.1 = k
    · simp [dictGet?, hp]
    · simp [dictGet?, hp, ih]

theorem setEntries_cons (k0 : String) (w : PyVal) (t : Doc) (k : String) (v : PyVal) :
    setEntries ((k0, w) :: t) k v =
      (if k0 = k then (k, v) else (k0, w)) :: setEntries t k v := by
  by_cases hp : k0 = k <;> simp [setEntries, hp]

theorem dictGet?_setEntries_self (d : Doc) (k : String) (v : PyVal) :
    dictGet? (setEntries d k v) k = (dictGet? d k).map (fun _ => v) := by
  induction d with
  | nil => rfl
  | cons p t ih =>
    obtain ⟨k0, w⟩ := p
    by_cases hp : k0 = k
    · subst hp
      rw [setEntries_cons, if_pos rfl]
      simp [dictGet?]
    · rw [setEntries_cons, if_neg hp]
      simp [dictGet?, hp, ih]

theorem dictGet?_setEntries_other (d : Doc) (k k' : String) (v : PyVal) (h : k' ≠ k) :
    dictGet? (setEntries d k v) k' = dictGet? d k' := by
  have h2 : ¬ k = k' := fun he => h he.symm
  induction d with
  | nil => rfl
  | cons p t ih =>
    obtain ⟨k0, w⟩ := p
    by_cases hp : k0 = k
    · subst hp
      rw [setEntries_cons, if_pos rfl]
      simp [dictGet?, h2, ih]
    · rw [setEntries_cons, if_neg hp]
      simp [dictGet?, ih]

theorem dictGet?_dictSet_self (d : Doc) (k : String) (v : PyVal) :
    dictGet? (dictSet d k v) k = some v := by
  unfold dictSet
  by_cases hk : hasKey d k
  · rw [if_pos hk, dictGet?_setEntries_self]
    unfold hasKey at hk
    cases h : dictGet? d k with
    | none => rw [h] at hk; simp at hk
    | some w => simp
  · rw [if_neg hk, dictGet?_append]
    unfold hasKey at hk
    cases h : dictGet? d k with
    | none => simp [dictGet?]
    | some w => rw [h] at hk; simp at hk

theorem dictGet?_dictSet_other (d : Doc) (k k' : String) (v : PyVal) (h : k' ≠ k) :
    dictGet? (dictSet d k v) k' = dictGet? d k' := by
  unfold dictSet
  by_cases hk : hasKey d k
  · rw [if_pos hk, dictGet?_setEntries_other _ _ _ _ h]
  · rw [if_neg hk, dictGet?_append]
    have h2 : ¬ k = k' := fun he => h he.symm
    cases hg : dictGet? d k' with
    | none => simp [dictGet?, h2]
    | some w => simp

/-- Value of the last binding of `k` in an update document: the value that
survives when the document's bindings are applied left to right by `$set`.
On Python-dict inputs there is at most one binding of each key. -/
def lastWrite? (o : Doc) (k : String) : Option PyVal :=
  match o with
  | [] => none
  | (k', v) :: t =>
    match lastWrite? t k with
    | some w => some w
    | none => if k' = k then some v else none

/-- MongoDB `$set`: apply the update document's bindings left to right. -/
def mergeSet (d o : Doc) : Doc :=
  o.foldl (fun acc p => dictSet acc p.1 p.2) d

theorem mergeSet_nil (d : Doc) : mergeSet d [] = d := rfl

theorem mergeSet_cons (d : Doc) (p : String × PyVal) (t : Doc) :
    mergeSet d (p :: t) = mergeSet (dictSet d p.1 p.2) t := rfl

/-- The `$set` lookup law: a key written by the update document reads its
last written value, any other key keeps its old value. -/
theorem dictGet?_mergeSet (o d : Doc) (k : String) :
    dictGet? (mergeSet d o) k =
      match lastWrite? o k with
      | some w => some w
      | none => dictGet? d k := by
  induction o generalizing d with
  | nil => rfl
  | cons p t ih =>
    obtain ⟨k', v⟩ := p
    rw [mergeSet_cons, ih]
    cases hl : lastWrite? t k with
    | some w => simp [lastWrite?, hl]
    | none =>
      by_cases hp : k' = k
      · subst hp
        simp [lastWrite?, hl, dictGet?_dictSet_self]
      · have h2 : k ≠ k' := fun he => hp he.symm
        simp [lastWrite?, hl, hp, dictGet?_dictSet_other _ _ _ _ h2]

/-! ### The ingestion loader: validation and upsert (claims C1 to C4) -/

/-- The seven measurement fields required by
`DataValidator.validate_observation` (note `visibilite`, unlike the
adapters' empty-row filter which has `pluie_3h`). -/
def obs_measurement_fields : List String :=
  ["temperature", "pression", "humidite", "vent_moyen",
   "vent_rafales", "pluie_1h", "visibilite"]

/-- Python `c in s` for a single character. -/
def strHasChar (s : String) (c : Char) : Bool :=
  s.data.contains c

/-- The timestamp shape test of `validate_observation`: the value must be a
string containing both `'T'` and `'Z'`. -/
def tsShapeOk (v : PyVal) : Bool :=
  match v with
  | .vStr s => strHasChar s 'T' && strHasChar s 'Z'
  | _ => false

/-- `record.get(field) is not None`: the field is present and non-null. -/
def measNonNull (r : Doc) (f : String) : Bool :=
  match getv r f with
  | .vNull => false
  | _ => true

/-- `DataValidator.validate_observation`: required identifier and timestamp
(Python truthiness), strict timestamp shape, and at least one non-null
measurement field. -/
def validate_observation (r : Doc) : Bool × Option String :=
  if truthy (getv r "id_station") = false then (false, some "Missing id_station")
  else if truthy (getv r "dh_utc") = false then (false, some "Missing dh_utc")
  else if tsShapeOk (getv r "dh_utc") = false then
    (false, some "Invalid ISO 8601 timestamp")
  else if obs_measurement_fields.any (measNonNull r) = false then
    (false, some "No measurement values present")
  else (true, none)

/-- `DataValidator.validate_station`: only the identifier is required. -/
def validate_station (r : Doc) : Bool × Option String :=
  if truthy (getv r "id_station") = false then (false, some "Missing id_station")
  else (true, none)

/-- Natural key of an observation: (station identifier, timestamp). -/
def obsKeyOf (d : Doc) : PyVal × PyVal :=
  (getv d "id_station", getv d "dh_utc")

/-- The MongoDB filter `{'id_station': key.1, 'dh_utc': key.2}` applied to a
stored document (key values are non-null here, so null/missing semantics of
Mongo equality do not come into play). -/
def matchesObsKey (key : PyVal × PyVal) (d : Doc) : Bool :=
  decide (getv d "id_station" = key.1) && decide (getv d "dh_utc" = key.2)

/-- Index of the first stored document matching the key — the document
`update_one` targets. -/
def findKeyIdx : Store → PyVal × PyVal → Option ℕ
  | [], _ => none
  | d :: t, key =>
    if matchesObsKey key d then some 0 else (findKeyIdx t key).map (· + 1)

/-- Replace the document at an index of the collection. -/
def setAt : Store → ℕ → Doc → Store
  | [], _, _ => []
  | _ :: t, 0, x => x :: t
  | h :: t, n + 1, x => h :: setAt t n x

/-- The provenance metadata added by `_insert_observation` before the write:
`obs['_source'] = source_name; obs['_ingestion_timestamp'] = now`. -/
def augmentObs (obs : Doc) (src now : String) : Doc :=
  dictSet (dictSet obs "_source" (.vStr src)) "_ingestion_timestamp" (.vStr now)

/-- `update_one(filter, {'$set': obs}, upsert=True)` on the observations
collection: `$set`-merge into the first matching document, else append the
update document as a new one; the boolean reports an upsert insert
(`result.upserted_id` non-null). -/
def upsertObs (store : Store) (obs : Doc) : Store × Bool :=
  match findKeyIdx store (obsKeyOf obs) with
  | some i => (setAt store i (mergeSet (store.getD i []) obs), false)
  | none => (store ++ [obs], true)

/-- `DataLoader._insert_observation`: validate (else `'skipped'`), add the
provenance metadata, upsert by (station, timestamp), classify `'inserted'`
or `'updated'`.  The `'error'` arm of the Python code is the `except` branch
around the store write, which the pure model cannot hit. -/
def insert_observation (store : Store) (obs : Doc) (src now : String) :
    Store × String :=
  if (validate_observation obs).1 = false then (store, "skipped")
  else
    ((upsertObs store (augmentObs obs src now)).1,
     if (upsertObs store (augmentObs obs src now)).2 then "inserted" else "updated")

/-- The stations collection together with the loader's in-run
`stations_cache` of already-written identifiers. -/
structure StationsState where
  store : Store
  cache : List PyVal
  deriving DecidableEq, Repr

/-- Index of the first stored station document with the given identifier. -/
def findStationIdx : Store → PyVal → Option ℕ
  | [], _ => none
  | d :: t, sid =>
    if getv d "id_station" = sid then some 0
    else (findStationIdx t sid).map (· + 1)

/-- `DataLoader._upsert_station`: validate (else `'skipped'`), short-circuit
to `'updated'` when the identifier is cached, else `$set`-upsert by
`id_station` and cache it, classifying `'inserted'`/`'updated'` by
`result.upserted_id`. -/
def upsert_station (st : StationsState) (r : Doc) : StationsState × String :=
  if (validate_station r).1 = false then (st, "skipped")
  else
    let sid := getv r "id_station"
    if sid ∈ st.cache then (st, "updated")
    else
      match findStationIdx st.store sid with
      | some i =>
        (⟨setAt st.store i (mergeSet (st.store.getD i []) r), st.cache ++ [sid]⟩, "updated")
      | none => (⟨st.store ++ [r], st.cache ++ [sid]⟩, "inserted")

/-! ### C4: classification of observation validation -/

/-- C4 disjunct: the station identifier is missing — absent, null, empty or
otherwise Python-falsy, which is the loader's test. -/
def station_id_missing (r : Doc) : Prop :=
  truthy (getv r "id_station") = false

/-- C4 disjunct: the timestamp is missing (Python-falsy). -/
def timestamp_missing (r : Doc) : Prop :=
  truthy (getv r "dh_utc") = false

/-- C4 disjunct: the timestamp fails the strict shape test (not a string
containing both `'T'` and `'Z'`). -/
def timestamp_shape_bad (r : Doc) : Prop :=
  tsShapeOk (getv r "dh_utc") = false

/-- C4 disjunct: no measurement field of the validator's subset is
populated (each is absent or null). -/
def no_measurement_populated (r : Doc) : Prop :=
  ∀ f ∈ obs_measurement_fields, getv r f = PyVal.vNull

/-- C4: `_insert_observation` classifies a record `'skipped'` exactly when
the station identifier is missing, the timestamp is missing, the timestamp
fails the strict shape test, or no measurement field is populated; a skip
leaves the store untouched; and the model never classifies `'error'` (that
arm is only reachable through a store exception). -/
theorem c4_validate_observation (r : Doc) (store : Store) (src now : String) :
    ((insert_observation store r src now).2 = "skipped" ↔
      station_id_missing r ∨ timestamp_missing r ∨ timestamp_shape_bad r ∨
        no_measurement_populated r) ∧
    ((insert_observation store r src now).2 = "skipped" →
      insert_observation store r src now = (store, "skipped")) ∧
    (insert_observation store r src now).2 ≠ "error" := by
  have hmeas : (obs_measurement_fields.any (measNonNull r) = false) ↔
      no_measurement_populated r := by
    rw [List.any_eq_false]
    unfold no_measurement_populated
    constructor
    · intro h f hf
      have h2 := h f hf
      unfold measNonNull at h2
      cases hg : getv r f with
      | vNull => rfl
      | vStr s => rw [hg] at h2; simp at h2
      | vInt n => rw [hg] at h2; simp at h2
      | vFloat q => rw [hg] at h2; simp at h2
      | vBool b => rw [hg] at h2; simp at h2
    · intro h f hf
      unfold measNonNull
      rw [h f hf]
      simp
  have hval : ((validate_observation r).1 = false ↔
      station_id_missing r ∨ timestamp_missing r ∨ timestamp_shape_bad r ∨
        no_measurement_populated r) := by
    unfold validate_observation station_id_missing timestamp_missing timestamp_shape_bad
    by_cases h1 : truthy (getv r "id_station") = false
    · simp [h1]
    · by_cases h2 : truthy (getv r "dh_utc") = false
      · simp [h1, h2]
      · by_cases h3 : tsShapeOk (getv r "dh_utc") = false
        · simp [h1, h2, h3]
        · by_cases h4 : obs_measurement_fields.any (measNonNull r) = false
          · simp [h1, h2, h3, h4, hmeas.mp h4]
          · simp [h1, h2, h3, h4]
            intro hc
            exact h4 (hmeas.mpr hc)
  unfold insert_observation
  by_cases hv : (validate_observation r).1 = false
  · rw [if_pos hv]
    exact ⟨⟨fun _ => hval.mp hv, fun _ => rfl⟩, fun _ => rfl,
      show ("skipped" : String) ≠ "error" by decide⟩
  · rw [if_neg hv]
    refine ⟨⟨?_, ?_⟩, ?_, ?_⟩
    · intro hc
      split at hc <;> simp at hc
    · intro hc
      exact absurd (hval.mpr hc) hv
    · intro hc
      split at hc <;> simp at hc
    · intro hc
      split at hc <;> simp at hc

/-- Witness for C4: the spec's own example — a record with a valid station
identifier and timestamp but all measurement fields null — is classified
`'skipped'` and the store is unchanged. -/
theorem c4_validate_observation_witness :
    insert_observation []
      [("id_station", PyVal.vStr "X1"), ("dh_utc", PyVal.vStr "2024-10-01T00:00:00Z"),
       ("temperature", PyVal.vNull), ("pression", PyVal.vNull),
       ("humidite", PyVal.vNull), ("vent_moyen", PyVal.vNull),
       ("vent_rafales", PyVal.vNull), ("pluie_1h", PyVal.vNull),
       ("visibilite", PyVal.vNull)] "src1" "t0" = ([], "skipped") := by
  have h := c4_validate_observation
    [("id_station", PyVal.vStr "X1"), ("dh_utc", PyVal.vStr "2024-10-01T00:00:00Z"),
     ("temperature", PyVal.vNull), ("pression", PyVal.vNull),
     ("humidite", PyVal.vNull), ("vent_moyen", PyVal.vNull),
     ("vent_rafales", PyVal.vNull), ("pluie_1h", PyVal.vNull),
     ("visibilite", PyVal.vNull)] [] "src1" "t0"
  exact h.2.1 (h.1.mpr (Or.inr (Or.inr (Or.inr (by
    unfold no_measurement_populated
    decide)))))

/-! ### C1: the upsert is a field-level `$set` merge, not a full replace -/

theorem lastWrite?_eq_none_of_not_hasKey (o : Doc) (k : String)
    (h : hasKey o k = false) : lastWrite? o k = none := by
  induction o with
  | nil => rfl
  | cons p t ih =>
    obtain ⟨k0, w⟩ := p
    unfold hasKey dictGet? at h
    by_cases hp : k0 = k
    · rw [if_pos hp] at h
      simp at h
    · rw [if_neg hp] at h
      unfold lastWrite?
      rw [ih h]
      simp [hp]

/-- The first stored document for claim C1's concrete key, holding a
temperature and a pressure. -/
def c1_doc0 : Doc :=
  [("id_station", PyVal.vStr "X1"), ("dh_utc", PyVal.vStr "2024-10-01T00:00:00Z"),
   ("temperature", PyVal.vFloat 15), ("pression", PyVal.vFloat 1013),
   ("_source", PyVal.vStr "src1"), ("_ingestion_timestamp", PyVal.vStr "t0")]

/-- A second write of the same key with fewer populated fields: the
`pression` key is omitted entirely. -/
def c1_obs2 : Doc :=
  [("id_station", PyVal.vStr "X1"), ("dh_utc", PyVal.vStr "2024-10-01T00:00:00Z"),
   ("temperature", PyVal.vFloat 10)]

/-- C1 counterexample: re-writing the key with the `pression` field omitted
does NOT erase the stored pressure — the document still reads 1013 after the
second write, refuting "full replace-by-key"; the upsert is a `$set`
field-level merge. -/
theorem c1_counterexample :
    (insert_observation [c1_doc0] c1_obs2 "src1" "t1").2 = "updated" ∧
    dictGet? ((insert_observation [c1_doc0] c1_obs2 "src1" "t1").1.getD 0 [])
      "pression" = some (PyVal.vFloat 1013) := by
  decide

/-- C1 amended: `_insert_observation` is insert-if-absent, and on an
existing key it performs a field-level `$set` merge: every key written by
the incoming record (after metadata augmentation) ends with its written
value — including explicit nulls — while every key absent from the incoming
record retains its previously-stored value. -/
theorem c1_upsert_set_semantics (store : Store) (obs : Doc) (src now : String)
    (hv : (validate_observation obs).1 = true) :
    (∀ i, findKeyIdx store (obsKeyOf (augmentObs obs src now)) = some i →
        insert_observation store obs src now =
          (setAt store i (mergeSet (store.getD i []) (augmentObs obs src now)),
           "updated") ∧
        (∀ k, hasKey (augmentObs obs src now) k = false →
          dictGet? (mergeSet (store.getD i []) (augmentObs obs src now)) k =
            dictGet? (store.getD i []) k) ∧
        (∀ k w, lastWrite? (augmentObs obs src now) k = some w →
          dictGet? (mergeSet (store.getD i []) (augmentObs obs src now)) k = some w)) ∧
    (findKeyIdx store (obsKeyOf (augmentObs obs src now)) = none →
        insert_observation store obs src now =
          (store ++ [augmentObs obs src now], "inserted")) := by
  have hvf : ¬ (validate_observation obs).1 = false := by
    rw [hv]
    simp
  constructor
  · intro i hi
    refine ⟨?_, ?_, ?_⟩
    · simp [insert_observation, if_neg hvf, upsertObs, hi]
    · intro k hk
      rw [dictGet?_mergeSet, lastWrite?_eq_none_of_not_hasKey _ _ hk]
    · intro k w hw
      rw [dictGet?_mergeSet, hw]
  · intro hn
    simp [insert_observation, if_neg hvf, upsertObs, hn]

/-- Witness for C1's amended theorem at the concrete counterexample data:
the key matches at index 0, the omitted `pression` is retained, the written
`temperature` wins. -/
theorem c1_upsert_set_semantics_witness :
    insert_observation [c1_doc0] c1_obs2 "src1" "t1" =
      (setAt [c1_doc0] 0 (mergeSet c1_doc0 (augmentObs c1_obs2 "src1" "t1")),
       "updated") ∧
    dictGet? (mergeSet c1_doc0 (augmentObs c1_obs2 "src1" "t1")) "pression" =
      some (PyVal.vFloat 1013) ∧
    dictGet? (mergeSet c1_doc0 (augmentObs c1_obs2 "src1" "t1")) "temperature" =
      some (PyVal.vFloat 10) := by
  have h := c1_upsert_set_semantics [c1_doc0] c1_obs2 "src1" "t1" (by decide)
  have h0 := h.1 0 (by decide)
  exact ⟨h0.1, (h0.2.1 "pression" (by decide)).trans (by decide),
    h0.2.2 "temperature" (PyVal.vFloat 10) (by decide)⟩

/-! ### C3: pipeline stations carry `'id'`, the loader requires `'id_station'` -/

/-- The station dict built by `ExcelDataHandler.read`: the identifier is
stored under the key `'id'`; there is no `'id_station'` key. -/
def excel_station (sid name lat lon elev city stt hw sw : PyVal) : Doc :=
  [("id", sid), ("name", name), ("latitude", lat), ("longitude", lon),
   ("elevation", elev), ("city", city), ("state", stt), ("hardware", hw),
   ("software", sw)]

/-- The station dict built by `JSONDataHandler.read` from a raw station
object: identifier under `'id'`, `city` copied from `name`, the provenance
fields null. -/
def json_station (raw : Doc) : Doc :=
  [("id", getv raw "id"), ("name", getv raw "name"),
   ("latitude", getv raw "latitude"), ("longitude", getv raw "longitude"),
   ("elevation", getv raw "elevation"), ("city", getv raw "name"),
   ("state", PyVal.vNull), ("hardware", PyVal.vNull), ("software", PyVal.vNull)]

/-- One step of the station merge of `UnifiedDataPipeline.merge_sources`:
drop the station when its `'id'` value is already present, else append. -/
def merge_station_step (acc : List Doc) (s : Doc) : List Doc :=
  if acc.any (fun s2 => decide (getv s2 "id" = getv s "id")) then acc
  else acc ++ [s]

/-- `UnifiedDataPipeline.merge_sources`, station part: first-seen
deduplication by the `'id'` value across all sources. -/
def merge_stations (srcs : List (List Doc)) : List Doc :=
  srcs.foldl (fun acc stations => stations.foldl merge_station_step acc) []

theorem mem_merge_station_fold (stations : List Doc) (acc : List Doc) (s : Doc)
    (h : s ∈ stations.foldl merge_station_step acc) : s ∈ acc ∨ s ∈ stations := by
  induction stations generalizing acc with
  | nil => exact Or.inl h
  | cons x t ih =>
    rcases ih (merge_station_step acc x) h with h2 | h2
    · unfold merge_station_step at h2
      split at h2
      · exact Or.inl h2
      · rcases List.mem_append.mp h2 with h3 | h3
        · exact Or.inl h3
        · exact Or.inr (List.mem_cons.mpr (Or.inl (List.mem_singleton.mp h3)))
    · exact Or.inr (List.mem_cons_of_mem x h2)

theorem mem_merge_stations (srcs : List (List Doc)) (s : Doc)
    (h : s ∈ merge_stations srcs) : ∃ l ∈ srcs, s ∈ l := by
  suffices haux : ∀ acc, s ∈ srcs.foldl
      (fun acc stations => stations.foldl merge_station_step acc) acc →
      s ∈ acc ∨ ∃ l ∈ srcs, s ∈ l by
    rcases haux [] h with h2 | h2
    · exact absurd h2 (List.not_mem_nil s)
    · exact h2
  clear h
  induction srcs with
  | nil => exact fun acc h => Or.inl h
  | cons x t ih =>
    intro acc h
    rcases ih (x.foldl merge_station_step acc) h with h2 | h2
    · rcases mem_merge_station_fold x acc s h2 with h3 | h3
      · exact Or.inl h3
      · exact Or.inr ⟨x, List.mem_cons_self x t, h3⟩
    · obtain ⟨l, hl, hsl⟩ := h2
      exact Or.inr ⟨l, List.mem_cons_of_mem x hl, hsl⟩

/-- C3: a document with no `'id_station'` key is always classified
`'skipped'` by `_upsert_station`, with the stations collection and cache
untouched; the station dicts built by both adapters have no `'id_station'`
key (their identifier is under `'id'`), and the station merge only passes
through adapter dicts — so every station from a pipeline-produced bulk line
is skipped, never inserted or updated. -/
theorem c3_pipeline_stations_skipped :
    (∀ st : StationsState, ∀ s : Doc, dictGet? s "id_station" = none →
        upsert_station st s = (st, "skipped")) ∧
    (∀ sid name lat lon elev city stt hw sw,
        dictGet? (excel_station sid name lat lon elev city stt hw sw)
          "id_station" = none) ∧
    (∀ raw, dictGet? (json_station raw) "id_station" = none) ∧
    (∀ srcs, (∀ l ∈ srcs, ∀ s ∈ l, dictGet? s "id_station" = none) →
        ∀ st : StationsState, ∀ s ∈ merge_stations srcs,
          upsert_station st s = (st, "skipped")) := by
  have hskip : ∀ st : StationsState, ∀ s : Doc, dictGet? s "id_station" = none →
      upsert_station st s = (st, "skipped") := by
    intro st s h
    have hg : getv s "id_station" = PyVal.vNull := by
      unfold getv
      rw [h]
      rfl
    have hc : truthy (getv s "id_station") = false := by
      rw [hg]
      rfl
    have hval : (validate_station s).1 = false := by
      unfold validate_station
      rw [if_pos hc]
    unfold upsert_station
    rw [if_pos hval]
  refine ⟨hskip, fun sid name lat lon elev city stt hw sw => rfl, fun raw => rfl, ?_⟩
  intro srcs hsrcs st s hs
  obtain ⟨l, hl, hsl⟩ := mem_merge_stations srcs s hs
  exact hskip st s (hsrcs l hl s hsl)

/-- Witness for C3 at a concrete pipeline station: a JSON-adapter station
with identifier `'A'` is skipped by the loader. -/
theorem c3_pipeline_stations_skipped_witness :
    upsert_station ⟨[], []⟩ (json_station [("id", PyVal.vStr "A")]) =
      (⟨[], []⟩, "skipped") :=
  c3_pipeline_stations_skipped.1 ⟨[], []⟩ (json_station [("id", PyVal.vStr "A")])
    (by decide)

/-! ### The quality engine (claims C6, C7, C10) -/

instance : ToString Frac := ⟨fun q => toString q.n ++ "/" ++ toString q.d⟩

/-- `round(count / total * 100, 2)`, the percentage rendering used by the
quality checks. -/
def pctRound (c total : ℕ) : Frac :=
  pyRound (Frac.ofN c / Frac.ofN total * 100) 2

/-- `count_documents({field: None})`: Mongo equality with null matches both
stored nulls and missing fields, which `getv`'s null default captures. -/
def countNullField (obs : Store) (f : String) : ℕ :=
  (obs.filter (fun d => decide (getv d f = PyVal.vNull))).length

/-- A count/percentage pair as reported by checks 1 and 4. -/
structure FieldCount where
  count : ℕ
  percentage : Frac
  deriving DecidableEq, Repr

/-- `DataQualityChecker._check_missing_fields` (check 1): null/missing
counts for the two required fields, alert if either is positive. -/
def check_missing_fields (obs : Store) : (FieldCount × FieldCount) × List String :=
  let ms := countNullField obs "id_station"
  let mt := countNullField obs "dh_utc"
  ((⟨ms, pctRound ms obs.length⟩, ⟨mt, pctRound mt obs.length⟩),
   if ms > 0 ∨ mt > 0 then
     ["Missing required fields: " ++ toString ms ++ " station, " ++
       toString mt ++ " timestamp"]
   else [])

/-- Number of (station, timestamp) groups of size greater than one — the
aggregation `$group` by the pair followed by `$match count > 1`, counted as
groups, not as extra rows. -/
def dupGroupCount (obs : Store) : ℕ :=
  ((obs.map obsKeyOf).dedup).countP
    (fun k => decide ((obs.map obsKeyOf).count k > 1))

/-- The duplicates summary of check 2. -/
structure DupStats where
  count : ℕ
  percentage : Frac
  deriving DecidableEq, Repr

/-- `DataQualityChecker._check_duplicates` (check 2): the duplicate-group
count as a rounded percentage of the total, alert when the rounded
percentage exceeds the 0.5 threshold. -/
def check_duplicates (obs : Store) : DupStats × List String :=
  let dc := dupGroupCount obs
  let pct := pctRound dc obs.length
  (⟨dc, pct⟩,
   if pct > 1/2 then ["High duplicate rate: " ++ toString pct ++ "%"] else [])

/-- Numeric (`int` or `double`) reading of a stored value, as selected by
the `$type: ['int', 'double']` match of check 3. -/
def numericVal? : PyVal → Option Frac
  | .vInt n => some (Frac.ofInt n)
  | .vFloat q => some q
  | _ => none

/-- The numeric values of one field across the collection. -/
def numericField (obs : Store) (f : String) : List Frac :=
  obs.filterMap (fun d => numericVal? (getv d f))

/-- Minimum of a non-empty list of fractions (0 for the empty list, which
check 3 never queries). -/
def fracMin : List Frac → Frac
  | [] => 0
  | x :: t => t.foldl (fun a b => if b < a then b else a) x

/-- Maximum, as `fracMin`. -/
def fracMax : List Frac → Frac
  | [] => 0
  | x :: t => t.foldl (fun a b => if a < b then b else a) x

/-- Sum of a list of fractions. -/
def fracSum (l : List Frac) : Frac := l.foldl (· + ·) 0

/-- The per-field summary of check 3 (min/max/avg rounded to 2 decimals). -/
structure RangeStats where
  rmin : Frac
  rmax : Frac
  ravg : Frac
  count : ℕ
  deriving DecidableEq, Repr

/-- The sanity-bound alerts of check 3: temperature outside [-50, 60],
pressure outside [900, 1050], each bound checked independently on the raw
(unrounded) min/max; humidity has no alert. -/
def range_alerts (f : String) (mn mx : Frac) : List String :=
  if f = "temperature" then
    (if mn < -50 then ["Temperature below -50.0C: " ++ toString mn] else []) ++
    (if 60 < mx then ["Temperature above 60.0C: " ++ toString mx] else [])
  else if f = "pression" then
    (if mn < 900 then ["Pressure below 900.0 hPa: " ++ toString mn] else []) ++
    (if 1050 < mx then ["Pressure above 1050.0 hPa: " ++ toString mx] else [])
  else []

/-- `DataQualityChecker._check_data_ranges` (check 3) over the three fields
temperature, pression, humidite, in order; a field with no numeric values
contributes nothing. -/
def check_data_ranges (obs : Store) : List (String × RangeStats) × List String :=
  (["temperature", "pression", "humidite"].foldl
    (fun acc f =>
      let vals := numericField obs f
      if vals.isEmpty then acc
      else
        let mn := fracMin vals
        let mx := fracMax vals
        let av := fracSum vals / Frac.ofN vals.length
        (acc.1 ++ [(f, ⟨pyRound mn 2, pyRound mx 2, pyRound av 2, vals.length⟩)],
         acc.2 ++ range_alerts f mn mx))
    ([], []))

/-- The fixed field list of check 4. -/
def null_rate_fields : List String :=
  ["temperature", "pression", "humidite", "vent_moyen", "vent_rafales",
   "pluie_1h", "visibilite", "nebulosite"]

/-- `DataQualityChecker._check_null_percentages` (check 4): null percentage
per measurement field, alert per field above the 20 threshold. -/
def check_null_percentages (obs : Store) : List (String × FieldCount) × List String :=
  (null_rate_fields.map
     (fun f => (f, ⟨countNullField obs f, pctRound (countNullField obs f) obs.length⟩)),
   (null_rate_fields.map
     (fun f =>
       if pctRound (countNullField obs f) obs.length > 20 then
         ["High null rate for " ++ f ++ ": " ++
           toString (pctRound (countNullField obs f) obs.length) ++ "%"]
       else [])).flatten)

/-- `DataQualityChecker._check_unique_values` (check 5): distinct station
identifiers and sources among observations, and the two collection totals;
informational, no alert. -/
def check_unique_values (obs stations schema : Store) : ℕ × ℕ × ℕ × ℕ :=
  (((obs.filterMap (fun d => dictGet? d "id_station")).dedup).length,
   ((obs.filterMap (fun d => dictGet? d "_source")).dedup).length,
   stations.length, schema.length)

/-- BSON runtime type tag of a stored scalar (`$type`). -/
def pyBsonType : PyVal → String
  | .vNull => "null"
  | .vStr _ => "string"
  | .vInt _ => "int"
  | .vFloat _ => "double"
  | .vBool _ => "bool"

/-- Group sizes by runtime type of a field over the documents where the
field exists (nulls included), in first-appearance order. -/
def typeGroups (obs : Store) (f : String) : List (String × ℕ) :=
  let types := (obs.filter (fun d => hasKey d f)).map (fun d => pyBsonType (getv d f))
  types.dedup.map (fun t => (t, types.count t))

/-- Contiguous-sublist test on character lists (Python `sub in s`). -/
def listHasInfix (pat : List Char) : List Char → Bool
  | [] => pat.isEmpty
  | c :: t => pat.isPrefixOf (c :: t) || listHasInfix pat t

/-- Python substring test `pat in s`. -/
def strHasSub (s pat : String) : Bool :=
  listHasInfix pat.data s.data

/-- `DataQualityChecker._check_type_consistency` (check 6): type groups for
`temperature` and `id_station`; alert unless the station identifier types
are a single tag containing `'string'`. -/
def check_type_consistency (obs : Store) :
    (List (String × ℕ) × List (String × ℕ)) × List String :=
  let tt := typeGroups obs "temperature"
  let st := typeGroups obs "id_station"
  ((tt, st),
   if st.length > 1 ∨ (st.length = 1 ∧ strHasSub (st.headD ("", 0)).1 "string" = false)
   then ["Non-string id_station values detected"] else [])

/-- Days from the civil epoch 1970-01-01 of a (year, month, day) date,
Hinnant's era-based algorithm with C-style truncating division. -/
def daysFromCivil (y m d : ℤ) : ℤ :=
  let y2 := if m ≤ 2 then y - 1 else y
  let era := (if 0 ≤ y2 then y2 else y2 - 399) / 400
  let yoe := y2 - era * 400
  let mp := (m + 9) % 12
  let doy := (153 * mp + 2) / 5 + d - 1
  let doe := yoe * 365 + yoe / 4 - yoe / 100 + doy
  era * 146097 + doe - 719468

/-- Parse of the strict `YYYY-MM-DDTHH:MM:SSZ` shape into seconds since the
civil epoch.  `dateutil.parser.parse` accepts more input shapes, but on the
two families the claims exercise the behaviours coincide: the strict shape
the pipeline writes parses, and a string with no date content at all makes
it raise `ValueError` (here `none`). -/
def parseIsoZ (s : String) : Option ℤ :=
  match s.data with
  | [y1, y2, y3, y4, '-', m1, m2, '-', d1, d2, 'T',
     h1, h2, ':', mi1, mi2, ':', s1, s2, 'Z'] =>
    if [y1, y2, y3, y4, m1, m2, d1, d2, h1, h2, mi1, mi2, s1, s2].all isDig then
      some (daysFromCivil (digitsToNat [y1, y2, y3, y4] : ℤ)
              (digitsToNat [m1, m2] : ℤ) (digitsToNat [d1, d2] : ℤ) * 86400 +
            (digitsToNat [h1, h2] : ℤ) * 3600 +
            (digitsToNat [mi1, mi2] : ℤ) * 60 + (digitsToNat [s1, s2] : ℤ))
    else none
  | _ => none

/-- The `dh_utc` values present in the collection (what `$addToSet`
collects: missing fields contribute nothing, stored nulls do). -/
def dhVals (obs : Store) : List PyVal :=
  obs.filterMap (fun d => dictGet? d "dh_utc")

/-- The string `dh_utc` values, over which `$min`/`$max` range (nulls are
ignored by those accumulators; the loader only stores strings here). -/
def dhStrs (obs : Store) : List String :=
  (dhVals obs).filterMap (fun v => match v with | .vStr s => some s | _ => none)

/-- Lexicographic code-point comparison of character lists — the string
order of Python and of BSON on the ASCII timestamps stored here. -/
def charListLt : List Char → List Char → Bool
  | [], [] => false
  | [], _ :: _ => true
  | _ :: _, [] => false
  | a :: as, b :: bs =>
    if a.toNat < b.toNat then true
    else if b.toNat < a.toNat then false
    else charListLt as bs

/-- Lexicographic string comparison. -/
def strLt (a b : String) : Bool :=
  charListLt a.data b.data

/-- Lexicographic minimum of a list of strings ('' for the empty list,
which the caller guards). -/
def strMin : List String → String
  | [] => ""
  | x :: t => t.foldl (fun a b => if strLt b a then b else a) x

/-- Lexicographic maximum, as `strMin`. -/
def strMax : List String → String
  | [] => ""
  | x :: t => t.foldl (fun a b => if strLt a b then b else a) x

/-- Result of check 7, flattening the `status`/`reason`/`details` dict the
Python code returns (`min_date`/`max_date` read `'N/A'` and the optional
fields `none` on the branches that do not compute them). -/
structure CoverageResult where
  status : String
  reason : String
  min_date : String
  max_date : String
  total_days : Option ℤ
  unique_dates : Option ℕ
  coverage_percentage : Frac
  deriving DecidableEq, Repr

/-- The raw (unrounded) coverage ratio of check 7:
distinct-timestamp-count over the day span plus one, times 100, or 0 when
the span is not positive. -/
def covOf (obs : Store) (t1 t2 : ℤ) : Frac :=
  if 0 < (t2 - t1).fdiv 86400 + 1 then
    Frac.ofN ((dhVals obs).dedup.length) /
      Frac.ofInt ((t2 - t1).fdiv 86400 + 1) * 100
  else 0

/-- `DataQualityChecker._check_date_coverage` (check 7).  The aggregation
yields no usable `min_date` when there are no (string) timestamps or the
minimum is the empty string: status `WARN`.  When the lexicographic extremes
both parse, `total_days` is the day difference plus one, the coverage ratio
is `distinct-timestamp-count / total_days * 100` (0 if `total_days` is not
positive) and the status is `PASS` iff the raw ratio is at least 95.  A
parse failure returns status `WARN` with a reason.  The `ERROR` arm of the
Python code is its outer `except`, reachable only through an aggregation
exception, which the pure model cannot raise — the check itself never
raises. -/
def check_date_coverage (obs : Store) : CoverageResult :=
  if dhStrs obs = [] ∨ strMin (dhStrs obs) = "" then
    ⟨"WARN", "No date data or aggregation failed", "N/A", "N/A", none, none, 0⟩
  else
    match parseIsoZ (strMin (dhStrs obs)), parseIsoZ (strMax (dhStrs obs)) with
    | some t1, some t2 =>
      ⟨if 95 ≤ covOf obs t1 t2 then "PASS" else "WARN",
       "Date coverage: " ++ toString (pyRound (covOf obs t1 t2) 1) ++ "%",
       strMin (dhStrs obs), strMax (dhStrs obs),
       some ((t2 - t1).fdiv 86400 + 1), some ((dhVals obs).dedup.length),
       pyRound (covOf obs t1 t2) 2⟩
    | _, _ =>
      ⟨"WARN", "Date parsing failed", strMin (dhStrs obs), strMax (dhStrs obs),
       none, none, 0⟩

/-- One entry of the report's `checks` dict. -/
inductive CheckEntry where
  | missingFields (idStationCount dhUtcCount : FieldCount)
  | duplicates (d : DupStats)
  | dataRanges (rs : List (String × RangeStats))
  | nullPercentages (ps : List (String × FieldCount))
  | uniqueValues (uStations uSources uCities uSchema : ℕ)
  | typeConsistency (tempTypes stationTypes : List (String × ℕ))
  | dateCoverage (c : CoverageResult)
  deriving DecidableEq, Repr

/-- The structured quality report of `run_all_checks`. -/
structure QualityReport where
  timestamp : String
  observations_total : ℕ
  stations_total : ℕ
  schema_metadata_total : ℕ
  checks : List (String × CheckEntry)
  alerts : List String
  deriving DecidableEq, Repr

/-- `DataQualityChecker.run_all_checks`: the three collection totals, then —
only when the observations collection is non-empty — the seven checks in
order with their alerts accumulated in encounter order.  With an empty
observations collection it returns immediately with empty `checks` and
`alerts`. -/
def run_all_checks (obs stations schema : Store) (nowTs : String) : QualityReport :=
  if obs.length = 0 then
    ⟨nowTs, obs.length, stations.length, schema.length, [], []⟩
  else
    let c1 := check_missing_fields obs
    let c2 := check_duplicates obs
    let c3 := check_data_ranges obs
    let c4 := check_null_percentages obs
    let c5 := check_unique_values obs stations schema
    let c6 := check_type_consistency obs
    let c7 := check_date_coverage obs
    ⟨nowTs, obs.length, stations.length, schema.length,
     [("missing_required_fields", .missingFields c1.1.1 c1.1.2),
      ("duplicates", .duplicates c2.1),
      ("data_ranges", .dataRanges c3.1),
      ("null_percentages", .nullPercentages c4.1),
      ("unique_values", .uniqueValues c5.1 c5.2.1 c5.2.2.1 c5.2.2.2),
      ("type_consistency", .typeConsistency c6.1.1 c6.1.2),
      ("date_coverage", .dateCoverage c7)],
     c1.2 ++ c2.2 ++ c3.2 ++ c4.2 ++ c6.2⟩

/-! ### C6: the date-coverage check -/

/-- Observations on exactly days 1, 2 and 4 of a 4-day October 2024 span. -/
def c6_days124 : Store :=
  [[("id_station", PyVal.vStr "A"), ("dh_utc", PyVal.vStr "2024-10-01T00:00:00Z")],
   [("id_station", PyVal.vStr "A"), ("dh_utc", PyVal.vStr "2024-10-02T00:00:00Z")],
   [("id_station", PyVal.vStr "A"), ("dh_utc", PyVal.vStr "2024-10-04T00:00:00Z")]]

/-- A store whose only timestamp has no date content at all, on which
`dateutil` parsing raises (here: parses to `none`). -/
def c6_bad : Store :=
  [[("id_station", PyVal.vStr "A"), ("dh_utc", PyVal.vStr "not a date")]]

/-- C6 counterexample: when timestamp parsing fails the check returns status
`'WARN'` (with a reason string), not `'ERROR'` as the claim states — the
`'ERROR'` arm belongs to the outer aggregation `except`. -/
theorem c6_counterexample :
    parseIsoZ (strMin (dhStrs c6_bad)) = none ∧
    (check_date_coverage c6_bad).status = "WARN" ∧
    (check_date_coverage c6_bad).reason = "Date parsing failed" ∧
    (check_date_coverage c6_bad).status ≠ "ERROR" := by
  decide

theorem ite_pass_or_warn (c : Prop) [Decidable c] :
    (if c then "PASS" else "WARN") = "PASS" ∨
    (if c then "PASS" else "WARN") = "WARN" := by
  by_cases h : c
  · exact Or.inl (if_pos h)
  · exact Or.inr (if_neg h)

/-- C6 amended: with no usable timestamp data the status is `'WARN'` with a
reason; when both lexicographic extremes parse, `total_days` is the day
difference plus one, the coverage percentage is distinct-timestamp-count
over `total_days` times 100 (rounded for the report) and the status is
`'PASS'` iff the raw ratio is at least 95, else `'WARN'`; a timestamp parse
failure yields `'WARN'` (not `'ERROR'`) with a reason; the check always
returns one of these statuses rather than raising.  On the days-1-2-4
example the ratio is 75.0 and the status `'WARN'`. -/
theorem c6_date_coverage (obs : Store) :
    (dhStrs obs = [] ∨ strMin (dhStrs obs) = "" →
      check_date_coverage obs =
        ⟨"WARN", "No date data or aggregation failed", "N/A", "N/A", none, none, 0⟩) ∧
    (∀ t1 t2, ¬ (dhStrs obs = [] ∨ strMin (dhStrs obs) = "") →
      parseIsoZ (strMin (dhStrs obs)) = some t1 →
      parseIsoZ (strMax (dhStrs obs)) = some t2 →
      (check_date_coverage obs).status =
        (if 95 ≤ covOf obs t1 t2 then "PASS" else "WARN") ∧
      (check_date_coverage obs).coverage_percentage = pyRound (covOf obs t1 t2) 2 ∧
      (check_date_coverage obs).total_days = some ((t2 - t1).fdiv 86400 + 1) ∧
      (check_date_coverage obs).unique_dates = some ((dhVals obs).dedup.length)) ∧
    (¬ (dhStrs obs = [] ∨ strMin (dhStrs obs) = "") →
      (parseIsoZ (strMin (dhStrs obs)) = none ∨
        parseIsoZ (strMax (dhStrs obs)) = none) →
      (check_date_coverage obs).status = "WARN" ∧
      (check_date_coverage obs).reason = "Date parsing failed") ∧
    ((check_date_coverage obs).status = "PASS" ∨
      (check_date_coverage obs).status = "WARN") ∧
    (check_date_coverage c6_days124).status = "WARN" ∧
    (check_date_coverage c6_days124).coverage_percentage = 75 ∧
    (check_date_coverage c6_days124).total_days = some 4 ∧
    (check_date_coverage c6_days124).unique_dates = some 3 := by
  refine ⟨?_, ?_, ?_, ?_, by decide, by decide, by decide, by decide⟩
  · intro h
    unfold check_date_coverage
    rw [if_pos h]
  · intro t1 t2 hne h1 h2
    unfold check_date_coverage
    rw [if_neg hne, h1, h2]
    exact ⟨rfl, rfl, rfl, rfl⟩
  · intro hne hp
    unfold check_date_coverage
    rw [if_neg hne]
    rcases hp with hp | hp
    · rw [hp]
      cases parseIsoZ (strMax (dhStrs obs)) <;> exact ⟨rfl, rfl⟩
    · rw [hp]
      cases parseIsoZ (strMin (dhStrs obs)) <;> exact ⟨rfl, rfl⟩
  · unfold check_date_coverage
    by_cases hc : dhStrs obs = [] ∨ strMin (dhStrs obs) = ""
    · rw [if_pos hc]
      exact Or.inr rfl
    · rw [if_neg hc]
      cases parseIsoZ (strMin (dhStrs obs)) with
      | none => exact Or.inr rfl
      | some t1 =>
        cases parseIsoZ (strMax (dhStrs obs)) with
        | none => exact Or.inr rfl
        | some t2 => exact ite_pass_or_warn _

/-- Witness for C6 at the days-1-2-4 store: the success branch applies with
the concrete parsed endpoints and yields status `'WARN'` at ratio 75. -/
theorem c6_date_coverage_witness :
    (check_date_coverage c6_days124).status = "WARN" ∧
    (check_date_coverage c6_days124).coverage_percentage = 75 := by
  have h := (c6_date_coverage c6_days124).2.1 1727740800 1728000000
    (by decide) (by decide) (by decide)
  exact ⟨h.1.trans (by decide), h.2.1.trans (by decide)⟩

/-! ### C7: the duplicate check -/

/-- Ten records, three of which share the key (A, t0). -/
def c7_ten : Store :=
  [[("id_station", PyVal.vStr "A"), ("dh_utc", PyVal.vStr "t0")],
   [("id_station", PyVal.vStr "A"), ("dh_utc", PyVal.vStr "t0")],
   [("id_station", PyVal.vStr "A"), ("dh_utc", PyVal.vStr "t0")],
   [("id_station", PyVal.vStr "A"), ("dh_utc", PyVal.vStr "t1")],
   [("id_station", PyVal.vStr "A"), ("dh_utc", PyVal.vStr "t2")],
   [("id_station", PyVal.vStr "A"), ("dh_utc", PyVal.vStr "t3")],
   [("id_station", PyVal.vStr "B"), ("dh_utc", PyVal.vStr "t0")],
   [("id_station", PyVal.vStr "B"), ("dh_utc", PyVal.vStr "t1")],
   [("id_station", PyVal.vStr "B"), ("dh_utc", PyVal.vStr "t2")],
   [("id_station", PyVal.vStr "B"), ("dh_utc", PyVal.vStr "t3")]]

/-- 199 records: 198 distinct keys plus one repeat of the first key, so one
duplicate group; 1/199 × 100 ≈ 0.5025 rounds to 0.50. -/
def c7_big : Store :=
  (List.range 198).map
    (fun i => [("id_station", PyVal.vInt (i : ℤ)), ("dh_utc", PyVal.vStr "T")]) ++
  [[("id_station", PyVal.vInt 0), ("dh_utc", PyVal.vStr "T")]]

theorem check_duplicates_snd (obs : Store) :
    (check_duplicates obs).2 =
      (if pctRound (dupGroupCount obs) obs.length > 1/2
       then ["High duplicate rate: " ++
         toString (pctRound (dupGroupCount obs) obs.length) ++ "%"]
       else []) := rfl

/-- The observation key of the i-th generated record of `c7_big`. -/
def c7key (i : ℕ) : PyVal × PyVal :=
  (PyVal.vInt (i : ℤ), PyVal.vStr "T")

theorem c7key_inj : Function.Injective c7key := by
  intro a b h
  simpa [c7key] using h

theorem c7_big_keys :
    c7_big.map obsKeyOf = (List.range 198).map c7key ++ [c7key 0] := by
  unfold c7_big
  rw [List.map_append, List.map_map]
  rfl

theorem c7_big_nodup_init : ((List.range 198).map c7key).Nodup :=
  List.Nodup.map c7key_inj (List.nodup_range 198)

theorem count_one_of_nodup {α : Type} [BEq α] [LawfulBEq α] (l : List α) (a : α)
    (hn : l.Nodup) (hm : a ∈ l) : l.count a = 1 := by
  induction l with
  | nil => cases hm
  | cons b t ih =>
    rw [List.count_cons, List.nodup_cons] at *
    rcases List.mem_cons.mp hm with rfl | hm2
    · rw [List.count_eq_zero_of_not_mem hn.1]
      simp
    · have hba : (b == a) = false := beq_eq_false_iff_ne.mpr (fun h => hn.1 (h ▸ hm2))
      rw [ih hn.2 hm2, hba]
      simp

theorem c7_big_count_zero :
    ((List.range 198).map c7key ++ [c7key 0]).count (c7key 0) = 2 := by
  rw [List.count_append,
    count_one_of_nodup _ _ c7_big_nodup_init
      (List.mem_map_of_mem c7key (List.mem_range.mpr (by omega))),
    List.count_singleton]
  simp

theorem c7_big_count_pos (i : ℕ) (h0 : i ≠ 0) (hi : i < 198) :
    ((List.range 198).map c7key ++ [c7key 0]).count (c7key i) = 1 := by
  rw [List.count_append,
    count_one_of_nodup _ _ c7_big_nodup_init
      (List.mem_map_of_mem c7key (List.mem_range.mpr hi)),
    List.count_singleton,
    if_neg (by
      intro hcon
      rw [beq_iff_eq] at hcon
      exact h0 (c7key_inj hcon).symm)]

theorem c7_big_dupGroupCount : dupGroupCount c7_big = 1 := by
  unfold dupGroupCount
  rw [c7_big_keys]
  rw [List.countP_congr (q := fun k => k == c7key 0) ?_]
  · rw [← List.count_eq_countP,
      count_one_of_nodup _ _ (List.nodup_dedup _)
        (List.mem_dedup.mpr (List.mem_append_right _ (by simp)))]
  · intro k hk
    rw [List.mem_dedup] at hk
    obtain ⟨i, hi, rfl⟩ : ∃ i, i < 198 ∧ c7key i = k := by
      rcases List.mem_append.mp hk with h | h
      · obtain ⟨i, hi, rfl⟩ := List.mem_map.mp h
        exact ⟨i, List.mem_range.mp hi, rfl⟩
      · rw [List.mem_singleton] at h
        exact ⟨0, by omega, h.symm⟩
    show decide (_ > 1) = true ↔ (c7key i == c7key 0) = true
    by_cases hi0 : i = 0
    · subst hi0
      rw [c7_big_count_zero]
      simp
    · rw [c7_big_count_pos i hi0 hi,
        beq_eq_false_iff_ne.mpr (fun h => hi0 (c7key_inj h))]
      simp

set_option maxRecDepth 10000 in
theorem c7_big_length : c7_big.length = 199 := by
  decide

set_option maxRecDepth 10000 in
/-- C7 counterexample: one duplicate group among 199 records is 0.5025…% of
the total — more than the 0.5 threshold — yet the check raises no alert,
because it compares the percentage rounded to two decimals (0.5) against
the threshold. -/
theorem c7_counterexample :
    (check_duplicates c7_big).2 = [] ∧
    Frac.ofN (dupGroupCount c7_big) / Frac.ofN c7_big.length * 100 > 1/2 := by
  constructor
  · rw [check_duplicates_snd, c7_big_dupGroupCount, c7_big_length, if_neg (by decide)]
  · rw [c7_big_dupGroupCount, c7_big_length]
    decide

/-- C7 amended: the check counts duplicate groups (keys occurring more than
once), not extra rows, reports that count with the percentage rounded to two
decimals, and alerts exactly when the rounded percentage exceeds 0.5; with 3
records sharing one key among 10, the reported count is 1. -/
theorem c7_check_duplicates (obs : Store) :
    (check_duplicates obs).1 =
      ⟨dupGroupCount obs, pctRound (dupGroupCount obs) obs.length⟩ ∧
    ((check_duplicates obs).2 ≠ [] ↔
      pctRound (dupGroupCount obs) obs.length > 1/2) ∧
    dupGroupCount obs =
      ((obs.map obsKeyOf).dedup).countP
        (fun k => decide ((obs.map obsKeyOf).count k > 1)) ∧
    (check_duplicates c7_ten).1.count = 1 ∧
    c7_ten.length = 10 := by
  refine ⟨rfl, ?_, rfl, by decide, rfl⟩
  unfold check_duplicates
  by_cases hp : pctRound (dupGroupCount obs) obs.length > 1/2
  · simp only [if_pos hp]
    simp [hp]
  · simp only [if_neg hp]
    simp [hp]

/-! ### C10: the empty-store early return -/

/-- C10: with an empty observations collection `run_all_checks` returns the
timestamp and the three collection totals with an empty checks map and an
empty alerts list — none of the seven checks executes, so no division by
the zero observation count can occur and the engine returns normally. -/
theorem c10_empty_store_report (stations schema : Store) (nowTs : String) :
    run_all_checks [] stations schema nowTs =
      ⟨nowTs, 0, stations.length, schema.length, [], []⟩ := rfl

/-! ### C2: replaying a batch — definitions -/

/-- The observation-processing loop of `DataLoader.load_jsonl_data`: each
record of the batch goes through `_insert_observation` against the evolving
store; the classifications are collected in order. -/
def loadObservations : Store → List Doc → String → String → Store × List String
  | store, [], _, _ => (store, [])
  | store, obs :: rest, src, now =>
    ((loadObservations (insert_observation store obs src now).1 rest src now).1,
     (insert_observation store obs src now).2 ::
       (loadObservations (insert_observation store obs src now).1 rest src now).2)

/-- The store after loading a batch. -/
def loadState (store : Store) (batch : List Doc) (src now : String) : Store :=
  (loadObservations store batch src now).1

/-- Validation verdict of a record as a Bool. -/
def validB (r : Doc) : Bool :=
  (validate_observation r).1

/-- A Python dict has pairwise-distinct keys. -/
def nodupKeys (r : Doc) : Prop :=
  (r.map Prod.fst).Nodup

/-- The keys of the stored documents, in position order. -/
def skeys (S : Store) : List (PyVal × PyVal) :=
  S.map obsKeyOf

/-- Whether some stored document matches the key. -/
def keyMem (S : Store) (key : PyVal × PyVal) : Bool :=
  S.any (matchesObsKey key)

/-- The augmented (metadata-bearing) valid records of the batch carrying a
given key, in batch order: exactly the `$set` updates that hit that key's
document during one load. -/
def keyRecsAug (batch : List Doc) (src now : String) (key : PyVal × PyVal) :
    List Doc :=
  (batch.filter (fun r => validB r && decide (obsKeyOf r = key))).map
    (fun r => augmentObs r src now)

/-- Last written value of a key across a list of update documents applied
left to right (later documents win). -/
def lastWriteDocs? : List Doc → String → Option PyVal
  | [], _ => none
  | o :: t, k =>
    match lastWriteDocs? t k with
    | some w => some w
    | none => lastWrite? o k

/-! ### C2: document-level lemmas -/

theorem hasKey_iff_mem_keys (d : Doc) (k : String) :
    hasKey d k = true ↔ k ∈ d.map Prod.fst := by
  induction d with
  | nil => simp [hasKey, dictGet?]
  | cons p t ih =>
    obtain ⟨k0, w⟩ := p
    by_cases hp : k0 = k
    · subst hp
      simp [hasKey, dictGet?]
    · have hp2 : ¬ k = k0 := fun h => hp h.symm
      unfold hasKey dictGet?
      rw [if_neg hp, List.map_cons, List.mem_cons]
      unfold hasKey at ih
      rw [ih]
      simp [hp2]

theorem keys_setEntries (d : Doc) (k : String) (v : PyVal) :
    (setEntries d k v).map Prod.fst = d.map Prod.fst := by
  induction d with
  | nil => rfl
  | cons p t ih =>
    obtain ⟨k0, w⟩ := p
    rw [setEntries_cons]
    by_cases hp : k0 = k
    · subst hp
      rw [if_pos rfl]
      simp [ih]
    · rw [if_neg hp]
      simp [ih]

theorem nodupKeys_dictSet (d : Doc) (k : String) (v : PyVal) (h : nodupKeys d) :
    nodupKeys (dictSet d k v) := by
  unfold dictSet
  by_cases hk : hasKey d k
  · rw [if_pos hk]
    unfold nodupKeys
    rw [keys_setEntries]
    exact h
  · rw [if_neg hk]
    unfold nodupKeys
    rw [List.map_append]
    have hk2 : k ∉ d.map Prod.fst := by
      intro hmem
      exact hk ((hasKey_iff_mem_keys d k).mpr hmem)
    refine List.Nodup.append h (List.nodup_singleton k) ?_
    intro a ha hb
    simp only [List.map_cons, List.map_nil, List.mem_singleton] at hb
    subst hb
    exact hk2 ha

theorem lastWrite?_eq_dictGet? (o : Doc) (k : String) (h : nodupKeys o) :
    lastWrite? o k = dictGet? o k := by
  induction o with
  | nil => rfl
  | cons p t ih =>
    obtain ⟨k0, w⟩ := p
    unfold nodupKeys at h
    rw [List.map_cons, List.nodup_cons] at h
    by_cases hp : k0 = k
    · subst hp
      have ht : hasKey t k0 = false := by
        cases hh : hasKey t k0
        · rfl
        · exact absurd ((hasKey_iff_mem_keys t k0).mp hh) h.1
      unfold lastWrite? dictGet?
      rw [lastWrite?_eq_none_of_not_hasKey t k0 ht]
      simp
    · unfold lastWrite? dictGet?
      rw [ih h.2]
      cases hg : dictGet? t k <;> simp [hp]

theorem lastWrite?_isSome (d : Doc) (k : String) :
    (lastWrite? d k).isSome = hasKey d k := by
  induction d with
  | nil => rfl
  | cons p t ih =>
    obtain ⟨k0, w⟩ := p
    unfold hasKey at ih ⊢
    unfold lastWrite? dictGet?
    cases hl : lastWrite? t k with
    | some w2 =>
      rw [hl] at ih
      by_cases hp : k0 = k <;> simp [hp, ← ih]
    | none =>
      rw [hl] at ih
      by_cases hp : k0 = k <;> simp [hp, ← ih]

theorem lastWrite?_append (a b : Doc) (k : String) :
    lastWrite? (a ++ b) k =
      match lastWrite? b k with
      | some w => some w
      | none => lastWrite? a k := by
  induction a with
  | nil => cases hb : lastWrite? b k <;> simp [lastWrite?, hb]
  | cons p t ih =>
    obtain ⟨k0, w⟩ := p
    simp only [List.cons_append, lastWrite?, List.append_eq]
    rw [ih]
    cases hb : lastWrite? b k <;> cases ht : lastWrite? t k <;> simp [hb, ht]

theorem lastWrite?_setEntries (d : Doc) (k1 : String) (v : PyVal) (k : String) :
    lastWrite? (setEntries d k1 v) k =
      if k = k1 then (lastWrite? d k1).map (fun _ => v) else lastWrite? d k := by
  induction d with
  | nil =>
    by_cases hp : k = k1 <;> simp [setEntries, lastWrite?, hp]
  | cons p t ih =>
    obtain ⟨k0, w⟩ := p
    rw [setEntries_cons]
    by_cases h0 : k0 = k1
    · rw [if_pos h0]
      subst h0
      simp only [lastWrite?]
      rw [ih]
      by_cases hp : k = k0
      · subst hp
        cases ht : lastWrite? t k <;> simp [ht]
      · have hp2 : ¬ k0 = k := fun h => hp h.symm
        cases ht : lastWrite? t k <;> simp [ht, hp, hp2]
    · rw [if_neg h0]
      simp only [lastWrite?]
      rw [ih]
      by_cases hp : k = k1
      · subst hp
        cases ht : lastWrite? t k <;> simp [ht, h0]
      · cases ht : lastWrite? t k <;> simp [ht, hp]

theorem lastWrite?_dictSet (d : Doc) (k1 : String) (v : PyVal) (k : String) :
    lastWrite? (dictSet d k1 v) k =
      if k = k1 then some v else lastWrite? d k := by
  unfold dictSet
  by_cases hk : hasKey d k1
  · rw [if_pos hk, lastWrite?_setEntries]
    by_cases hp : k = k1
    · rw [if_pos hp, if_pos hp]
      have h2 : (lastWrite? d k1).isSome = true := by
        rw [lastWrite?_isSome]
        exact hk
      cases hl : lastWrite? d k1
      · rw [hl] at h2
        simp at h2
      · simp
    · rw [if_neg hp, if_neg hp]
  · rw [if_neg hk, lastWrite?_append]
    by_cases hp : k = k1
    · subst hp
      simp [lastWrite?]
    · have hp2 : ¬ k1 = k := fun h => hp h.symm
      simp [lastWrite?, hp, hp2]

theorem hasKey_dictSet (d : Doc) (k1 : String) (v : PyVal) (k : String) :
    hasKey (dictSet d k1 v) k = (hasKey d k || decide (k = k1)) := by
  by_cases hp : k = k1
  · subst hp
    unfold hasKey
    rw [dictGet?_dictSet_self]
    simp
  · unfold hasKey
    rw [dictGet?_dictSet_other _ _ _ _ hp]
    simp [hp]

theorem dictGet?_foldl_mergeSet (os : List Doc) (d : Doc) (k : String) :
    dictGet? (os.foldl mergeSet d) k =
      match lastWriteDocs? os k with
      | some w => some w
      | none => dictGet? d k := by
  induction os generalizing d with
  | nil => rfl
  | cons o t ih =>
    simp only [List.foldl_cons]
    rw [ih, dictGet?_mergeSet]
    simp only [lastWriteDocs?]
    cases ht : lastWriteDocs? t k <;> cases ho : lastWrite? o k <;> simp [ht, ho]

theorem hasKey_of_truthy (r : Doc) (k : String) (h : truthy (getv r k) = true) :
    hasKey r k = true := by
  unfold getv at h
  unfold hasKey
  cases hg : dictGet? r k with
  | none =>
    rw [hg] at h
    simp [truthy] at h
  | some w => simp

theorem getv_augment_of_ne (r : Doc) (src now k : String)
    (h1 : k ≠ "_source") (h2 : k ≠ "_ingestion_timestamp") :
    getv (augmentObs r src now) k = getv r k := by
  unfold augmentObs getv
  rw [dictGet?_dictSet_other _ _ _ _ h2, dictGet?_dictSet_other _ _ _ _ h1]

theorem obsKeyOf_augment (r : Doc) (src now : String) :
    obsKeyOf (augmentObs r src now) = obsKeyOf r := by
  unfold obsKeyOf
  rw [getv_augment_of_ne r src now _ (by decide) (by decide),
    getv_augment_of_ne r src now _ (by decide) (by decide)]

theorem nodupKeys_augment (r : Doc) (src now : String) (h : nodupKeys r) :
    nodupKeys (augmentObs r src now) :=
  nodupKeys_dictSet _ _ _ (nodupKeys_dictSet _ _ _ h)

theorem hasKey_augment_id (r : Doc) (src now : String)
    (h : hasKey r "id_station" = true) :
    hasKey (augmentObs r src now) "id_station" = true := by
  unfold augmentObs
  rw [hasKey_dictSet, hasKey_dictSet, h]
  rfl

theorem hasKey_augment_ts (r : Doc) (src now : String)
    (h : hasKey r "dh_utc" = true) :
    hasKey (augmentObs r src now) "dh_utc" = true := by
  unfold augmentObs
  rw [hasKey_dictSet, hasKey_dictSet, h]
  rfl

theorem obsKeyOf_mergeSet (d o : Doc) (hN : nodupKeys o)
    (hid : hasKey o "id_station" = true) (hts : hasKey o "dh_utc" = true) :
    obsKeyOf (mergeSet d o) = obsKeyOf o := by
  unfold obsKeyOf getv
  rw [dictGet?_mergeSet, dictGet?_mergeSet,
    lastWrite?_eq_dictGet? o _ hN, lastWrite?_eq_dictGet? o _ hN]
  unfold hasKey at hid hts
  cases h1 : dictGet? o "id_station" with
  | none => rw [h1] at hid; simp at hid
  | some v1 =>
    cases h2 : dictGet? o "dh_utc" with
    | none => rw [h2] at hts; simp at hts
    | some v2 => simp

theorem lastWrite?_augment_indep (r : Doc) (src now1 now2 : String) (k : String)
    (h : k ≠ "_ingestion_timestamp") :
    lastWrite? (augmentObs r src now1) k = lastWrite? (augmentObs r src now2) k := by
  unfold augmentObs
  simp only [lastWrite?_dictSet]
  rw [if_neg h, if_neg h]

/-! ### C2: store-level lemmas -/

theorem getD_mem_of_lt {α : Type} (l : List α) (n : ℕ) (d : α) (h : n < l.length) :
    l.getD n d ∈ l := by
  rw [List.getD_eq_getElem l d h]
  exact List.getElem_mem h

theorem getD_append_len {α : Type} (l : List α) (a d : α) :
    (l ++ [a]).getD l.length d = a := by
  induction l with
  | nil => rfl
  | cons x t ih => simp [ih]

theorem nodup_getD_ne {α : Type} (l : List α) (d : α) (hn : l.Nodup) (p q : ℕ)
    (hp : p < l.length) (hq : q < l.length) (hpq : p ≠ q) :
    l.getD p d ≠ l.getD q d := by
  rw [List.getD_eq_getElem l d hp, List.getD_eq_getElem l d hq]
  intro he
  exact hpq ((hn.getElem_inj_iff).mp he)

theorem nodup_getD_not_mem_left {α : Type} (l e : List α) (p : ℕ) (d : α)
    (hn : (l ++ e).Nodup) (hp : l.length ≤ p) (hp2 : p < (l ++ e).length) :
    (l ++ e).getD p d ∉ l := by
  intro hmem
  obtain ⟨q, hq, hql⟩ := List.getElem_of_mem hmem
  have hq2 : q < (l ++ e).length := by
    rw [List.length_append]
    omega
  have hqp : (l ++ e)[q] = (l ++ e)[p] := by
    rw [List.getElem_append_left hq, hql, List.getD_eq_getElem _ _ hp2]
  have : q = p := (hn.getElem_inj_iff).mp hqp
  omega

theorem length_setAt (S : Store) (i : ℕ) (d : Doc) :
    (setAt S i d).length = S.length := by
  induction S generalizing i with
  | nil => rfl
  | cons x t ih =>
    cases i with
    | zero => rfl
    | succ n => simp [setAt, ih]

theorem getD_setAt_self (S : Store) (i : ℕ) (d : Doc) (h : i < S.length) :
    (setAt S i d).getD i [] = d := by
  induction S generalizing i with
  | nil => exact absurd h (by simp)
  | cons x t ih =>
    cases i with
    | zero => rfl
    | succ n => simpa [setAt] using ih n (by simpa using h)

theorem getD_setAt_other (S : Store) (i p : ℕ) (d : Doc) (hne : p ≠ i) :
    (setAt S i d).getD p [] = S.getD p [] := by
  induction S generalizing i p with
  | nil => rfl
  | cons x t ih =>
    cases i with
    | zero =>
      cases p with
      | zero => exact absurd rfl hne
      | succ m => simp [setAt]
    | succ n =>
      cases p with
      | zero => rfl
      | succ m =>
        simp only [setAt, List.getD_cons_succ]
        exact ih n m (fun hh => hne (by omega))

theorem skeys_setAt_same (S : Store) (i : ℕ) (d : Doc)
    (h : obsKeyOf d = obsKeyOf (S.getD i [])) :
    skeys (setAt S i d) = skeys S := by
  induction S generalizing i with
  | nil => rfl
  | cons x t ih =>
    cases i with
    | zero =>
      simp only [setAt, skeys, List.map_cons]
      rw [show obsKeyOf d = obsKeyOf x from h]
    | succ n =>
      have hx := ih n (by simpa [List.getD_cons_succ] using h)
      simp only [setAt, skeys, List.map_cons]
      unfold skeys at hx
      rw [hx]

theorem skeys_append_one (S : Store) (d : Doc) :
    skeys (S ++ [d]) = skeys S ++ [obsKeyOf d] := by
  simp [skeys]

theorem length_skeys (S : Store) : (skeys S).length = S.length := by
  simp [skeys]

theorem skeys_getD (S : Store) (p : ℕ) (hp : p < S.length) :
    (skeys S).getD p (PyVal.vNull, PyVal.vNull) = obsKeyOf (S.getD p []) := by
  induction S generalizing p with
  | nil => exact absurd hp (by simp)
  | cons x t ih =>
    cases p with
    | zero => rfl
    | succ n => simpa [skeys] using ih n (by simpa using hp)

theorem matchesObsKey_iff (key : PyVal × PyVal) (d : Doc) :
    matchesObsKey key d = true ↔ obsKeyOf d = key := by
  unfold matchesObsKey obsKeyOf
  simp [Prod.ext_iff]

theorem keyMem_iff (S : Store) (key : PyVal × PyVal) :
    keyMem S key = true ↔ key ∈ skeys S := by
  unfold keyMem skeys
  rw [List.any_eq_true]
  constructor
  · rintro ⟨d, hd, hm⟩
    exact ((matchesObsKey_iff key d).mp hm) ▸ List.mem_map_of_mem obsKeyOf hd
  · intro hk
    obtain ⟨d, hd, hdk⟩ := List.mem_map.mp hk
    exact ⟨d, hd, (matchesObsKey_iff key d).mpr hdk⟩

theorem keyMem_eq_decide (S : Store) (key : PyVal × PyVal) :
    keyMem S key = decide (key ∈ skeys S) := by
  rw [Bool.eq_iff_iff, keyMem_iff, decide_eq_true_iff]

theorem keyMem_congr_skeys (A B : Store) (key : PyVal × PyVal)
    (h : skeys A = skeys B) : keyMem A key = keyMem B key := by
  rw [keyMem_eq_decide, keyMem_eq_decide, h]

theorem findKeyIdx_isSome (S : Store) (key : PyVal × PyVal) :
    (findKeyIdx S key).isSome = keyMem S key := by
  induction S with
  | nil => rfl
  | cons d t ih =>
    show (if matchesObsKey key d then some 0 else (findKeyIdx t key).map (· + 1)).isSome
        = (matchesObsKey key d || keyMem t key)
    cases hm : matchesObsKey key d
    · rw [Bool.false_or, if_neg (by simp : ¬ (false = true)), ← ih]
      cases hf : findKeyIdx t key <;> simp [hf]
    · rw [if_pos rfl]
      rfl

theorem findKeyIdx_some_facts (S : Store) (key : PyVal × PyVal) (i : ℕ)
    (h : findKeyIdx S key = some i) :
    i < S.length ∧ obsKeyOf (S.getD i []) = key := by
  induction S generalizing i with
  | nil => exact absurd h (by simp [findKeyIdx])
  | cons d t ih =>
    unfold findKeyIdx at h
    by_cases hm : matchesObsKey key d = true
    · rw [if_pos hm] at h
      obtain rfl : (0 : ℕ) = i := by simpa using h
      exact ⟨by simp, (matchesObsKey_iff key d).mp hm⟩
    · rw [if_neg hm] at h
      obtain ⟨j, hj, rfl⟩ := Option.map_eq_some'.mp h
      obtain ⟨h1, h2⟩ := ih j hj
      exact ⟨by simpa using Nat.succ_lt_succ h1, by simpa using h2⟩

theorem mergeSet_no_overlap (o : Doc) :
    ∀ d : Doc, nodupKeys o → (∀ k ∈ o.map Prod.fst, hasKey d k = false) →
      mergeSet d o = d ++ o := by
  induction o with
  | nil =>
    intro d _ _
    simp [mergeSet_nil]
  | cons p t ih =>
    intro d hnd hks
    obtain ⟨k, v⟩ := p
    unfold nodupKeys at hnd
    rw [List.map_cons, List.nodup_cons] at hnd
    rw [mergeSet_cons]
    have hk : hasKey d k = false := hks k (by simp)
    have hset : dictSet d k v = d ++ [(k, v)] := by
      unfold dictSet
      rw [if_neg (by simp [hk])]
    have hnt : nodupKeys t := hnd.2
    have hks2 : ∀ k2 ∈ t.map Prod.fst, hasKey (d ++ [(k, v)]) k2 = false := by
      intro k2 hk2
      have h1 : hasKey d k2 = false := hks k2 (by simp [hk2])
      have h2 : ¬ k = k2 := fun he => hnd.1 (he ▸ hk2)
      unfold hasKey at h1 ⊢
      rw [dictGet?_append]
      cases hg : dictGet? d k2
      · simp [dictGet?, h2]
      · rw [hg] at h1
        exact absurd h1 (by simp)
    rw [hset, ih (d ++ [(k, v)]) hnt hks2, List.append_assoc]
    rfl

theorem mergeSet_nil_of_nodup (o : Doc) (h : nodupKeys o) : mergeSet [] o = o := by
  have := mergeSet_no_overlap o [] h (fun k _ => rfl)
  simpa using this

theorem validB_truthy (r : Doc) (h : validB r = true) :
    truthy (getv r "id_station") = true ∧ truthy (getv r "dh_utc") = true := by
  unfold validB validate_observation at h
  by_cases h1 : truthy (getv r "id_station") = false
  · rw [if_pos h1] at h
    simp at h
  · by_cases h2 : truthy (getv r "dh_utc") = false
    · rw [if_neg h1, if_pos h2] at h
      simp at h
    · constructor
      · cases hb : truthy (getv r "id_station")
        · exact absurd hb h1
        · rfl
      · cases hb : truthy (getv r "dh_utc")
        · exact absurd hb h2
        · rfl

/-! ### C2: one-record step lemmas -/

theorem insert_observation_cases (S : Store) (r : Doc) (src now : String)
    (hr : nodupKeys r) :
    (validB r = false ∧ insert_observation S r src now = (S, "skipped"))
    ∨ (∃ i, validB r = true ∧ findKeyIdx S (obsKeyOf r) = some i ∧ i < S.length ∧
        obsKeyOf (S.getD i []) = obsKeyOf r ∧
        insert_observation S r src now =
          (setAt S i (mergeSet (S.getD i []) (augmentObs r src now)), "updated") ∧
        skeys (setAt S i (mergeSet (S.getD i []) (augmentObs r src now))) = skeys S)
    ∨ (validB r = true ∧ findKeyIdx S (obsKeyOf r) = none ∧
        obsKeyOf r ∉ skeys S ∧
        insert_observation S r src now = (S ++ [augmentObs r src now], "inserted") ∧
        skeys (S ++ [augmentObs r src now]) = skeys S ++ [obsKeyOf r]) := by
  by_cases hv : validB r = false
  · left
    refine ⟨hv, ?_⟩
    have hv2 : (validate_observation r).1 = false := hv
    unfold insert_observation
    rw [if_pos hv2]
  · right
    have hv2 : validB r = true := by
      cases hb : validB r
      · exact absurd hb hv
      · rfl
    have hvv : ¬ (validate_observation r).1 = false := hv
    cases hf : findKeyIdx S (obsKeyOf r) with
    | some i =>
      left
      obtain ⟨hlt, hkey⟩ := findKeyIdx_some_facts S (obsKeyOf r) i hf
      have hins : insert_observation S r src now =
          (setAt S i (mergeSet (S.getD i []) (augmentObs r src now)), "updated") := by
        unfold insert_observation
        rw [if_neg hvv]
        unfold upsertObs
        rw [obsKeyOf_augment, hf]
        rfl
      have hmk : obsKeyOf (mergeSet (S.getD i []) (augmentObs r src now)) = obsKeyOf r := by
        have hid : hasKey (augmentObs r src now) "id_station" = true :=
          hasKey_augment_id _ _ _ (hasKey_of_truthy _ _ (validB_truthy r hv2).1)
        have hts : hasKey (augmentObs r src now) "dh_utc" = true :=
          hasKey_augment_ts _ _ _ (hasKey_of_truthy _ _ (validB_truthy r hv2).2)
        rw [obsKeyOf_mergeSet _ _ (nodupKeys_augment r src now hr) hid hts,
          obsKeyOf_augment]
      exact ⟨i, hv2, rfl, hlt, hkey, hins,
        skeys_setAt_same S i _ (by rw [hmk, ← hkey])⟩
    | none =>
      right
      have hnm : obsKeyOf r ∉ skeys S := by
        intro hmem
        have h1 : keyMem S (obsKeyOf r) = true := (keyMem_iff S _).mpr hmem
        have h2 := findKeyIdx_isSome S (obsKeyOf r)
        rw [hf, h1] at h2
        exact absurd h2 (by simp)
      have hins : insert_observation S r src now =
          (S ++ [augmentObs r src now], "inserted") := by
        unfold insert_observation
        rw [if_neg hvv]
        unfold upsertObs
        rw [obsKeyOf_augment, hf]
        rfl
      exact ⟨hv2, rfl, hnm, hins, by rw [skeys_append_one, obsKeyOf_augment]⟩

theorem loadState_nil (S : Store) (src now : String) : loadState S [] src now = S := rfl

theorem loadState_cons (S : Store) (r : Doc) (rest : List Doc) (src now : String) :
    loadState S (r :: rest) src now =
      loadState (insert_observation S r src now).1 rest src now := rfl

theorem loadSnd_cons (S : Store) (r : Doc) (rest : List Doc) (src now : String) :
    (loadObservations S (r :: rest) src now).2 =
      (insert_observation S r src now).2 ::
        (loadObservations (insert_observation S r src now).1 rest src now).2 := rfl

theorem keyRecsAug_cons (r : Doc) (rest : List Doc) (src now : String)
    (key : PyVal × PyVal) :
    keyRecsAug (r :: rest) src now key =
      if (validB r && decide (obsKeyOf r = key)) = true
      then augmentObs r src now :: keyRecsAug rest src now key
      else keyRecsAug rest src now key := by
  unfold keyRecsAug
  rw [List.filter_cons]
  by_cases hc : (validB r && decide (obsKeyOf r = key)) = true
  · rw [if_pos hc, if_pos hc, List.map_cons]
  · rw [if_neg hc, if_neg hc]

theorem lastWriteDocs?_map_aug (rs : List Doc) (src now1 now2 k : String)
    (h : k ≠ "_ingestion_timestamp") :
    lastWriteDocs? (rs.map fun q => augmentObs q src now1) k =
      lastWriteDocs? (rs.map fun q => augmentObs q src now2) k := by
  induction rs with
  | nil => rfl
  | cons q t ih =>
    simp only [List.map_cons, lastWriteDocs?]
    rw [ih, lastWrite?_augment_indep q src now1 now2 k h]

theorem keyRecsAug_indep (batch : List Doc) (src now1 now2 : String)
    (key : PyVal × PyVal) (k : String) (h : k ≠ "_ingestion_timestamp") :
    lastWriteDocs? (keyRecsAug batch src now1 key) k =
      lastWriteDocs? (keyRecsAug batch src now2 key) k := by
  unfold keyRecsAug
  exact lastWriteDocs?_map_aug _ src now1 now2 k h

theorem keyMem_step (S : Store) (r : Doc) (src now : String) (key : PyVal × PyVal)
    (hr : nodupKeys r) :
    keyMem (insert_observation S r src now).1 key =
      (keyMem S key || (validB r && decide (obsKeyOf r = key))) := by
  rcases insert_observation_cases S r src now hr with
    ⟨hv, heq⟩ | ⟨i, hv, hf, hlt, hkey, heq, hsk⟩ | ⟨hv, hf, hnm, heq, hsk⟩
  · rw [heq]
    simp [hv]
  · rw [heq]
    show keyMem (setAt S i (mergeSet (S.getD i []) (augmentObs r src now))) key = _
    rw [keyMem_congr_skeys _ S _ hsk, hv]
    by_cases hc : obsKeyOf r = key
    · have hkm : keyMem S key = true := by
        rw [← hc]
        have h2 := findKeyIdx_isSome S (obsKeyOf r)
        rw [hf] at h2
        exact h2.symm
      rw [hkm]
      simp
    · simp [hc]
  · rw [heq]
    show keyMem (S ++ [augmentObs r src now]) key = _
    rw [keyMem_eq_decide, keyMem_eq_decide, hsk, hv]
    by_cases hm : key ∈ skeys S
    · simp [hm]
    · by_cases hc : obsKeyOf r = key
      · simp [hm, hc]
      · have hni : key ∉ skeys S ++ [obsKeyOf r] := by
          rw [List.mem_append, List.mem_singleton]
          rintro (h1 | h1)
          · exact hm h1
          · exact hc h1.symm
        simp [hm, hc, hni]

/-! ### C2: the batch-load invariant -/

theorem load_invariant (src now : String) (batch : List Doc) :
    ∀ S : Store, (∀ r ∈ batch, nodupKeys r) → (skeys S).Nodup →
      (∃ ext, skeys (loadState S batch src now) = skeys S ++ ext)
      ∧ (skeys (loadState S batch src now)).Nodup
      ∧ (∀ p, p < S.length →
          (loadState S batch src now).getD p [] =
            (keyRecsAug batch src now
              ((skeys S).getD p (PyVal.vNull, PyVal.vNull))).foldl mergeSet (S.getD p []))
      ∧ (∀ p, S.length ≤ p → p < (loadState S batch src now).length →
          (loadState S batch src now).getD p [] =
            (keyRecsAug batch src now
              ((skeys (loadState S batch src now)).getD p
                (PyVal.vNull, PyVal.vNull))).foldl mergeSet []) := by
  induction batch with
  | nil =>
    intro S hN hS
    refine ⟨⟨[], by simp [loadState_nil]⟩, by rw [loadState_nil]; exact hS, ?_, ?_⟩
    · intro p hp
      rw [loadState_nil]
      rfl
    · intro p hp1 hp2
      rw [loadState_nil] at hp2
      exact absurd hp1 (by omega)
  | cons r rest ih =>
    intro S hN hS
    have hr : nodupKeys r := hN r (by simp)
    have hNr : ∀ q ∈ rest, nodupKeys q := fun q hq => hN q (by simp [hq])
    rcases insert_observation_cases S r src now hr with
      ⟨hv, heq⟩ | ⟨i, hv, hf, hlt, hkey, heq, hsk⟩ | ⟨hv, hf, hnm, heq, hsk⟩
    · -- the record is invalid: the store is untouched and the record
      -- contributes no update
      have hT : loadState S (r :: rest) src now = loadState S rest src now := by
        rw [loadState_cons, heq]
      have hKR : ∀ key, keyRecsAug (r :: rest) src now key = keyRecsAug rest src now key := by
        intro key
        rw [keyRecsAug_cons]
        simp [hv]
      obtain ⟨⟨ext, hext⟩, h2, h3, h4⟩ := ih S hNr hS
      refine ⟨⟨ext, by rw [hT]; exact hext⟩, by rw [hT]; exact h2, ?_, ?_⟩
      · intro p hp
        rw [hT, hKR]
        exact h3 p hp
      · intro p hp1 hp2
        rw [hT] at hp2 ⊢
        rw [hKR]
        exact h4 p hp1 hp2
    · -- the record merges into the matching document at position i
      have hT : loadState S (r :: rest) src now =
          loadState (setAt S i (mergeSet (S.getD i []) (augmentObs r src now))) rest src now := by
        rw [loadState_cons, heq]
      have hS2 : (skeys (setAt S i (mergeSet (S.getD i []) (augmentObs r src now)))).Nodup := by
        rw [hsk]
        exact hS
      have hlen : (setAt S i (mergeSet (S.getD i []) (augmentObs r src now))).length = S.length :=
        length_setAt S i _
      obtain ⟨⟨ext, hext⟩, h2, h3, h4⟩ :=
        ih (setAt S i (mergeSet (S.getD i []) (augmentObs r src now))) hNr hS2
      have hkr : (skeys S).getD i (PyVal.vNull, PyVal.vNull) = obsKeyOf r := by
        rw [skeys_getD S i hlt, hkey]
      refine ⟨⟨ext, ?_⟩, by rw [hT]; exact h2, ?_, ?_⟩
      · rw [hT, hext, hsk]
      · intro p hp
        rw [hT]
        by_cases hpi : p = i
        · subst hpi
          have h3p := h3 p (by omega)
          rw [hsk, hkr, getD_setAt_self S p _ hlt] at h3p
          rw [h3p, hkr, keyRecsAug_cons, if_pos (by rw [hv]; simp), List.foldl_cons]
        · have h3p := h3 p (by omega)
          rw [hsk, getD_setAt_other S i p _ hpi] at h3p
          rw [h3p, keyRecsAug_cons]
          have hne : obsKeyOf r ≠ (skeys S).getD p (PyVal.vNull, PyVal.vNull) := by
            rw [← hkr]
            exact nodup_getD_ne (skeys S) (PyVal.vNull, PyVal.vNull) hS i p
              (by rw [length_skeys]; exact hlt) (by rw [length_skeys]; exact hp)
              (fun hh => hpi hh.symm)
          rw [if_neg (by
            intro hcon
            rw [Bool.and_eq_true, decide_eq_true_iff] at hcon
            exact hne hcon.2)]
      · intro p hp1 hp2
        rw [hT] at hp2 ⊢
        have h4p := h4 p (by omega) hp2
        rw [h4p, keyRecsAug_cons]
        have hkT : (skeys (loadState (setAt S i (mergeSet (S.getD i [])
            (augmentObs r src now))) rest src now)).getD p (PyVal.vNull, PyVal.vNull)
            ∉ skeys (setAt S i (mergeSet (S.getD i []) (augmentObs r src now))) := by
          rw [hext]
          apply nodup_getD_not_mem_left
          · rw [← hext]
            exact h2
          · rw [length_skeys, hlen]
            omega
          · rw [← hext, length_skeys]
            exact hp2
        have hrmem : obsKeyOf r ∈ skeys (setAt S i (mergeSet (S.getD i [])
            (augmentObs r src now))) := by
          rw [hsk, ← hkey]
          exact List.mem_map_of_mem obsKeyOf (getD_mem_of_lt S i [] hlt)
        have hne : obsKeyOf r ≠ (skeys (loadState (setAt S i (mergeSet (S.getD i [])
            (augmentObs r src now))) rest src now)).getD p (PyVal.vNull, PyVal.vNull) :=
          fun hh => hkT (hh ▸ hrmem)
        rw [if_neg (by
          intro hcon
          rw [Bool.and_eq_true, decide_eq_true_iff] at hcon
          exact hne hcon.2)]
    · -- the record is appended as a fresh document
      have hT : loadState S (r :: rest) src now =
          loadState (S ++ [augmentObs r src now]) rest src now := by
        rw [loadState_cons, heq]
      have hS2 : (skeys (S ++ [augmentObs r src now])).Nodup := by
        rw [hsk]
        refine List.Nodup.append hS (List.nodup_singleton _) ?_
        intro a ha hb
        rw [List.mem_singleton] at hb
        subst hb
        exact hnm ha
      have hlen : (S ++ [augmentObs r src now]).length = S.length + 1 := by
        simp
      obtain ⟨⟨ext, hext⟩, h2, h3, h4⟩ := ih (S ++ [augmentObs r src now]) hNr hS2
      refine ⟨⟨obsKeyOf r :: ext, ?_⟩, by rw [hT]; exact h2, ?_, ?_⟩
      · rw [hT, hext, hsk, List.append_assoc]
        rfl
      · intro p hp
        rw [hT]
        have h3p := h3 p (by omega)
        rw [hsk] at h3p
        rw [List.getD_append (skeys S) [obsKeyOf r] (PyVal.vNull, PyVal.vNull) p
          (by rw [length_skeys]; exact hp)] at h3p
        rw [List.getD_append S [augmentObs r src now] ([] : Doc) p hp] at h3p
        rw [h3p, keyRecsAug_cons]
        have hpm : (skeys S).getD p (PyVal.vNull, PyVal.vNull) ∈ skeys S := by
          apply getD_mem_of_lt
          rw [length_skeys]
          exact hp
        have hne : obsKeyOf r ≠ (skeys S).getD p (PyVal.vNull, PyVal.vNull) :=
          fun hh => hnm (hh ▸ hpm)
        rw [if_neg (by
          intro hcon
          rw [Bool.and_eq_true, decide_eq_true_iff] at hcon
          exact hne hcon.2)]
      · intro p hp1 hp2
        rw [hT] at hp2 ⊢
        by_cases hps : p = S.length
        · subst hps
          have h3p := h3 S.length (by omega)
          rw [hsk] at h3p
          have e1 : (skeys S ++ [obsKeyOf r]).getD S.length (PyVal.vNull, PyVal.vNull)
              = obsKeyOf r := by
            have hb := getD_append_len (skeys S) (obsKeyOf r) (PyVal.vNull, PyVal.vNull)
            rw [length_skeys] at hb
            exact hb
          rw [e1, getD_append_len S (augmentObs r src now) []] at h3p
          have e2 : (skeys (loadState (S ++ [augmentObs r src now]) rest src now)).getD
              S.length (PyVal.vNull, PyVal.vNull) = obsKeyOf r := by
            rw [hext]
            rw [List.getD_append (skeys (S ++ [augmentObs r src now])) ext
              (PyVal.vNull, PyVal.vNull) S.length (by rw [length_skeys, hlen]; omega)]
            rw [hsk]
            exact e1
          rw [e2, h3p, keyRecsAug_cons, if_pos (by rw [hv]; simp), List.foldl_cons,
            mergeSet_nil_of_nodup _ (nodupKeys_augment r src now hr)]
        · have h4p := h4 p (by omega) hp2
          rw [h4p, keyRecsAug_cons]
          have hkT : (skeys (loadState (S ++ [augmentObs r src now]) rest src now)).getD p
              (PyVal.vNull, PyVal.vNull) ∉ skeys (S ++ [augmentObs r src now]) := by
            rw [hext]
            apply nodup_getD_not_mem_left
            · rw [← hext]
              exact h2
            · rw [length_skeys, hlen]
              omega
            · rw [← hext, length_skeys]
              exact hp2
          have hrmem : obsKeyOf r ∈ skeys (S ++ [augmentObs r src now]) := by
            rw [hsk, List.mem_append, List.mem_singleton]
            right
            rfl
          have hne : obsKeyOf r ≠ (skeys (loadState (S ++ [augmentObs r src now])
              rest src now)).getD p (PyVal.vNull, PyVal.vNull) :=
            fun hh => hkT (hh ▸ hrmem)
          rw [if_neg (by
            intro hcon
            rw [Bool.and_eq_true, decide_eq_true_iff] at hcon
            exact hne hcon.2)]

theorem load_keys_mem (src now : String) (batch : List Doc) :
    ∀ S : Store, (∀ r ∈ batch, nodupKeys r) → (skeys S).Nodup →
      ∀ q ∈ batch, validB q = true →
        obsKeyOf q ∈ skeys (loadState S batch src now) := by
  induction batch with
  | nil =>
    intro S _ _ q hq
    exact absurd hq (List.not_mem_nil q)
  | cons r rest ih =>
    intro S hN hS q hq hvq
    have hr : nodupKeys r := hN r (by simp)
    have hNr : ∀ x ∈ rest, nodupKeys x := fun x hx => hN x (by simp [hx])
    rcases insert_observation_cases S r src now hr with
      ⟨hv, heq⟩ | ⟨i, hv, hf, hlt, hkey, heq, hsk⟩ | ⟨hv, hf, hnm, heq, hsk⟩
    · have hT : loadState S (r :: rest) src now = loadState S rest src now := by
        rw [loadState_cons, heq]
      rw [hT]
      rcases List.mem_cons.mp hq with rfl | hq2
      · rw [hv] at hvq
        exact absurd hvq (by simp)
      · exact ih S hNr hS q hq2 hvq
    · have hT : loadState S (r :: rest) src now =
          loadState (setAt S i (mergeSet (S.getD i []) (augmentObs r src now))) rest src now := by
        rw [loadState_cons, heq]
      have hS2 : (skeys (setAt S i (mergeSet (S.getD i []) (augmentObs r src now)))).Nodup := by
        rw [hsk]
        exact hS
      rw [hT]
      rcases List.mem_cons.mp hq with rfl | hq2
      · obtain ⟨ext, hext⟩ :=
          (load_invariant src now rest
            (setAt S i (mergeSet (S.getD i []) (augmentObs q src now))) hNr hS2).1
        rw [hext]
        apply List.mem_append_left
        rw [hsk, ← hkey]
        exact List.mem_map_of_mem obsKeyOf (getD_mem_of_lt S i [] hlt)
      · exact ih _ hNr hS2 q hq2 hvq
    · have hT : loadState S (r :: rest) src now =
          loadState (S ++ [augmentObs r src now]) rest src now := by
        rw [loadState_cons, heq]
      have hS2 : (skeys (S ++ [augmentObs r src now])).Nodup := by
        rw [hsk]
        refine List.Nodup.append hS (List.nodup_singleton _) ?_
        intro a ha hb
        rw [List.mem_singleton] at hb
        subst hb
        exact hnm ha
      rw [hT]
      rcases List.mem_cons.mp hq with rfl | hq2
      · obtain ⟨ext, hext⟩ :=
          (load_invariant src now rest (S ++ [augmentObs q src now]) hNr hS2).1
        rw [hext]
        apply List.mem_append_left
        rw [hsk]
        exact List.mem_append_right _ (by simp)
      · exact ih _ hNr hS2 q hq2 hvq

theorem load_length_keys (src now : String) (batch : List Doc) :
    ∀ S : Store, (∀ r ∈ batch, nodupKeys r) →
      (∀ q ∈ batch, validB q = true → keyMem S (obsKeyOf q) = true) →
      (loadState S batch src now).length = S.length := by
  induction batch with
  | nil =>
    intro S _ _
    rw [loadState_nil]
  | cons r rest ih =>
    intro S hN hkm
    have hr : nodupKeys r := hN r (by simp)
    have hNr : ∀ x ∈ rest, nodupKeys x := fun x hx => hN x (by simp [hx])
    rcases insert_observation_cases S r src now hr with
      ⟨hv, heq⟩ | ⟨i, hv, hf, hlt, hkey, heq, hsk⟩ | ⟨hv, hf, hnm, heq, hsk⟩
    · rw [loadState_cons, heq]
      exact ih S hNr (fun q hq hvq => hkm q (by simp [hq]) hvq)
    · have step := ih (setAt S i (mergeSet (S.getD i []) (augmentObs r src now))) hNr
        (fun q hq hvq => by
          rw [keyMem_congr_skeys _ S _ hsk]
          exact hkm q (by simp [hq]) hvq)
      rw [loadState_cons, heq]
      show (loadState (setAt S i (mergeSet (S.getD i []) (augmentObs r src now)))
        rest src now).length = S.length
      rw [step, length_setAt]
    · have h1 : keyMem S (obsKeyOf r) = true := hkm r (by simp) hv
      have h2 := findKeyIdx_isSome S (obsKeyOf r)
      rw [hf, h1] at h2
      exact absurd h2 (by simp)

theorem load_results_length (src now : String) (batch : List Doc) :
    ∀ S : Store, (loadObservations S batch src now).2.length = batch.length := by
  induction batch with
  | nil =>
    intro S
    rfl
  | cons r rest ih =>
    intro S
    rw [loadSnd_cons, List.length_cons, ih, List.length_cons]

theorem load_results_of (src now : String) (batch : List Doc) :
    ∀ (S : Store) (j : ℕ), (∀ r ∈ batch, nodupKeys r) → j < batch.length →
      (loadObservations S batch src now).2.getD j "" =
        (if validB (batch.getD j []) = false then "skipped"
         else if (keyMem S (obsKeyOf (batch.getD j [])) ||
             ((batch.take j).any fun q =>
               validB q && decide (obsKeyOf q = obsKeyOf (batch.getD j [])))) = true
           then "updated" else "inserted") := by
  induction batch with
  | nil =>
    intro S j _ hj
    exact absurd hj (by simp)
  | cons r rest ih =>
    intro S j hN hj
    have hr : nodupKeys r := hN r (by simp)
    have hNr : ∀ x ∈ rest, nodupKeys x := fun x hx => hN x (by simp [hx])
    cases j with
    | zero =>
      rw [loadSnd_cons, List.getD_cons_zero]
      rcases insert_observation_cases S r src now hr with
        ⟨hv, heq⟩ | ⟨i, hv, hf, hlt, hkey, heq, hsk⟩ | ⟨hv, hf, hnm, heq, hsk⟩
      · rw [heq]
        simp [hv]
      · rw [heq]
        have hkm : keyMem S (obsKeyOf r) = true := by
          have h2 := findKeyIdx_isSome S (obsKeyOf r)
          rw [hf] at h2
          exact h2.symm
        simp [hv, hkm]
      · rw [heq]
        have hkm : keyMem S (obsKeyOf r) = false := by
          have h2 := findKeyIdx_isSome S (obsKeyOf r)
          rw [hf] at h2
          exact h2.symm
        simp [hv, hkm]
    | succ n =>
      rw [loadSnd_cons, List.getD_cons_succ]
      have hj2 : n < rest.length := by simpa using hj
      have ihr := ih (insert_observation S r src now).1 n hNr hj2
      rw [ihr, keyMem_step S r src now _ hr]
      rw [List.getD_cons_succ, List.take_succ_cons, List.any_cons, Bool.or_assoc]

instance nodupKeysDec (r : Doc) : Decidable (nodupKeys r) :=
  List.nodupDecidable _

/-- A two-record batch (same observation key, different measurement fields)
used to exercise the replay theorems. -/
def c2batch : List Doc :=
  [[("id_station", PyVal.vStr "A"), ("dh_utc", PyVal.vStr "2024-01-01T00:00:00Z"),
    ("temperature", PyVal.vInt 5)],
   [("id_station", PyVal.vStr "A"), ("dh_utc", PyVal.vStr "2024-01-01T00:00:00Z"),
    ("pression", PyVal.vInt 1013)]]

/-- C2, counterexample to "loading the same batch twice yields an identical
final document state": each load stamps `obs['_ingestion_timestamp'] =
datetime.now().isoformat()` before the write, so a replay at a different
wall-clock time changes the stored document even though the classifications
behave as claimed (`inserted` then `updated` for the key's first record). -/
theorem c2_counterexample :
    (loadObservations [] c2batch "meteo" "t1").2 = ["inserted", "updated"]
    ∧ (loadObservations (loadState [] c2batch "meteo" "t1") c2batch "meteo" "t2").2
        = ["updated", "updated"]
    ∧ loadState (loadState [] c2batch "meteo" "t1") c2batch "meteo" "t2"
        ≠ loadState [] c2batch "meteo" "t1" := by
  decide

/-- C2 (corrected): replaying a batch of duplicate-free records is idempotent
on the stored documents only up to the `_ingestion_timestamp` provenance
field: the second load leaves the document count unchanged and every stored
field other than `_ingestion_timestamp` keeps its first-load value.  The
first load classifies a record `inserted` exactly when it is valid and no
earlier valid record of the batch carries its (station, timestamp) key, and
`updated` on later valid records of an already-seen key; the second load
classifies every valid record `updated` and never reports `inserted`. -/
theorem c2_batch_replay (batch : List Doc) (src now1 now2 : String)
    (hN : ∀ r ∈ batch, nodupKeys r) :
    (loadState (loadState [] batch src now1) batch src now2).length
        = (loadState [] batch src now1).length
    ∧ (∀ p k, k ≠ "_ingestion_timestamp" →
        dictGet? ((loadState (loadState [] batch src now1) batch src now2).getD p []) k
          = dictGet? ((loadState [] batch src now1).getD p []) k)
    ∧ (∀ j, j < batch.length →
        (loadObservations [] batch src now1).2.getD j "" =
          (if validB (batch.getD j []) = false then "skipped"
           else if ((batch.take j).any fun q =>
               validB q && decide (obsKeyOf q = obsKeyOf (batch.getD j []))) = true
             then "updated" else "inserted"))
    ∧ (∀ j, j < batch.length →
        (loadObservations (loadState [] batch src now1) batch src now2).2.getD j "" =
          (if validB (batch.getD j []) = false then "skipped" else "updated"))
    ∧ "inserted" ∉ (loadObservations (loadState [] batch src now1) batch src now2).2 := by
  have hS0 : (skeys ([] : Store)).Nodup := List.nodup_nil
  obtain ⟨⟨ext1, hext1⟩, hNod1, h31, h41⟩ := load_invariant src now1 batch [] hN hS0
  have hkeys : ∀ q ∈ batch, validB q = true →
      keyMem (loadState [] batch src now1) (obsKeyOf q) = true := fun q hq hv =>
    (keyMem_iff _ _).mpr (load_keys_mem src now1 batch [] hN hS0 q hq hv)
  have hA : (loadState (loadState [] batch src now1) batch src now2).length
      = (loadState [] batch src now1).length :=
    load_length_keys src now2 batch (loadState [] batch src now1) hN hkeys
  obtain ⟨hpre2, hNod2, h32, h42⟩ :=
    load_invariant src now2 batch (loadState [] batch src now1) hN hNod1
  refine ⟨hA, ?_, ?_, ?_, ?_⟩
  · intro p k hk
    by_cases hp : p < (loadState [] batch src now1).length
    · rw [h32 p hp, dictGet?_foldl_mergeSet,
        keyRecsAug_indep batch src now2 now1 _ k (fun hh => hk hh)]
      cases hl : lastWriteDocs? (keyRecsAug batch src now1
          ((skeys (loadState [] batch src now1)).getD p (PyVal.vNull, PyVal.vNull))) k with
      | some w =>
        have h4p := h41 p (by simp) hp
        rw [h4p, dictGet?_foldl_mergeSet, hl]
      | none => rfl
    · have hp2 : (loadState [] batch src now1).length ≤ p := by omega
      have e1 : (loadState (loadState [] batch src now1) batch src now2).getD p [] = [] :=
        List.getD_eq_default _ _ (by rw [hA]; exact hp2)
      have e2 : (loadState [] batch src now1).getD p [] = [] :=
        List.getD_eq_default _ _ hp2
      rw [e1, e2]
  · intro j hj
    rw [load_results_of src now1 batch [] j hN hj]
    rfl
  · intro j hj
    rw [load_results_of src now2 batch (loadState [] batch src now1) j hN hj]
    by_cases hv : validB (batch.getD j []) = false
    · rw [if_pos hv, if_pos hv]
    · rw [if_neg hv, if_neg hv]
      have hvt : validB (batch.getD j []) = true := by
        cases hb : validB (batch.getD j [])
        · exact absurd hb hv
        · rfl
      have hkm := hkeys (batch.getD j []) (getD_mem_of_lt batch j [] hj) hvt
      rw [hkm, Bool.true_or, if_pos rfl]
  · intro hmem
    obtain ⟨j, hjl, hjv⟩ := List.getElem_of_mem hmem
    have hlen := load_results_length src now2 batch (loadState [] batch src now1)
    have hjb : j < batch.length := by rw [← hlen]; exact hjl
    have hgd : (loadObservations (loadState [] batch src now1) batch src now2).2.getD j ""
        = "inserted" := by
      rw [List.getD_eq_getElem _ _ hjl, hjv]
    rw [load_results_of src now2 batch (loadState [] batch src now1) j hN hjb] at hgd
    by_cases hv : validB (batch.getD j []) = false
    · rw [if_pos hv] at hgd
      exact absurd hgd (by decide)
    · rw [if_neg hv] at hgd
      have hvt : validB (batch.getD j []) = true := by
        cases hb : validB (batch.getD j [])
        · exact absurd hb hv
        · rfl
      have hkm := hkeys (batch.getD j []) (getD_mem_of_lt batch j [] hjb) hvt
      rw [hkm, Bool.true_or, if_pos rfl] at hgd
      exact absurd hgd (by decide)

theorem c2_batch_replay_witness :
    (∀ r ∈ c2batch, nodupKeys r) ∧
    (loadState (loadState [] c2batch "meteo" "t1") c2batch "meteo" "t2").length
      = (loadState [] c2batch "meteo" "t1").length :=
  ⟨by decide, (c2_batch_replay c2batch "meteo" "t1" "t2" (by decide)).1⟩
